import Mathlib

/-!
# app-launcher-helper: the instance aggregation service

A shallow embedding of `service/atk_list_service.go` and the properties of its
merge (`Append`), join (`getInstancesFromSpaceSummary`), collection
(`GetAllInstances`) and ordering (`Sort`) steps.

Conventions of the embedding:

* a Go slice is a `List`; a nil slice and an empty slice are both `[]`;
* a Go `error` is its message, and a nil error is `none`;
* a pointer field is an `Option` (`none` is the nil pointer);
* a Go `map[string]V` is a list of entries with pairwise distinct keys, the
  order of the list being the order in which one `range` over the map visits
  the entries (every order is a possible one);
* a run-time panic (index out of range) is the result `none`;
* calls to the logger have no effect on the values computed and are left out.
-/

namespace AppLauncher

/-! ## Data model -/

/-- The struct `AtkInstance`; `SeInstance` is the pointer field `*AtkInstance`. -/
inductive AtkInstance where
  | mk (Name Url Guid ServiceGuid State : String) (SeInstance : Option AtkInstance)

namespace AtkInstance

/-- Field `Name`. -/
def Name : AtkInstance → String
  | mk n _ _ _ _ _ => n

/-- Field `Url`. -/
def Url : AtkInstance → String
  | mk _ u _ _ _ _ => u

/-- Field `Guid`. -/
def Guid : AtkInstance → String
  | mk _ _ g _ _ _ => g

/-- Field `ServiceGuid`. -/
def ServiceGuid : AtkInstance → String
  | mk _ _ _ s _ _ => s

/-- Field `State`. -/
def State : AtkInstance → String
  | mk _ _ _ _ s _ => s

/-- Field `SeInstance`. -/
def SeInstance : AtkInstance → Option AtkInstance
  | mk _ _ _ _ _ se => se

/-- The zero value of the struct: empty strings and a nil pointer. -/
def zero : AtkInstance := mk "" "" "" "" "" none

/-- The assignment `atk.SeInstance = se` on a copy of the struct. -/
def setSeInstance : AtkInstance → Option AtkInstance → AtkInstance
  | mk n u g sg st _, se => mk n u g sg st se

end AtkInstance

/-- The struct `AtkInstances`; its zero value `AtkInstances{}` is `{}`. -/
structure AtkInstances where
  Instances : List AtkInstance := []
  ServicePlanGuid : String := ""
  SeServicePlanGuid : String := ""

/-- A Go `error`, represented by its message. -/
abbrev Error := String

/-- A Go `map[string]V`: entries with pairwise distinct keys, listed in the
order in which a `range` loop visits them. -/
structure GoMap (V : Type) where
  entries : List (String × V)
  nodup : (entries.map Prod.fst).Nodup

namespace GoMap

/-- The result of `make(map[string]V)`. -/
def empty {V : Type} : GoMap V := ⟨[], List.nodup_nil⟩

/-- The keys of the map. -/
def keys {V : Type} (m : GoMap V) : List String := m.entries.map Prod.fst

/-- The builtin `len(m)`. -/
def size {V : Type} (m : GoMap V) : Nat := m.entries.length

/-- The two-valued read `v, ok := m[k]`. -/
def lookup {V : Type} (m : GoMap V) (k : String) : Option V := m.entries.lookup k

/-- The one-valued read `m[k]`: the zero value `z` of `V` when `k` is absent. -/
def get {V : Type} (m : GoMap V) (z : V) (k : String) : V := (m.lookup k).getD z

/-- The assignment `m[k] = v`: an entry already under `k` is replaced. -/
def insert {V : Type} (m : GoMap V) (k : String) (v : V) : GoMap V :=
  ⟨(k, v) :: m.entries.filter (fun e => decide (e.1 ≠ k)), by
    rw [List.map_cons, List.nodup_cons]
    refine ⟨?_, (List.filter_sublist m.entries).map Prod.fst |>.nodup m.nodup⟩
    intro h
    obtain ⟨e, he, hk⟩ := List.mem_map.1 h
    have := (List.mem_filter.1 he).2
    simp at this
    exact this hk⟩

end GoMap

/-- An element of `summary.Apps`. The declaration is not in the files of the
service read here; the join reads only `Name`.
Modelled from the spec: the fields `Url`, `Guid` and `State`, from which "each
Instance's URL/state/guid fields are populated". -/
structure Application where
  Name : String := ""
  Url : String := ""
  Guid : String := ""
  State : String := ""

/-- An element of `summary.Services`. The declaration is not in the files of
the service read here; the join reads only the length of the list.
Modelled from the spec: a service binding with the label of its service, a
descriptor matched against the search string, the service-binding identifier
(the correlation key) and the name of the application record it matches. -/
structure Service where
  Label : String := ""
  Name : String := ""
  Guid : String := ""
  BoundApp : String := ""

/-- The space summary returned by the platform: `Apps` and `Services`. -/
structure SpaceSummary where
  Apps : List Application := []
  Services : List Service := []

/-- The value returned by `cloudController.Spaces`, with its `IdList()`. -/
structure Spaces where
  IdList : List String := []

/-- The `Entity` of a catalog resource: `Label` and `ServicePlansUrl`. -/
structure ServiceEntity where
  Label : String := ""
  ServicePlansUrl : String := ""

/-- One element of `services.Resources`. -/
structure ServiceResource where
  Entity : ServiceEntity := {}

/-- The value returned by `cloudController.Services`. -/
structure ServiceList where
  Resources : List ServiceResource := []

/-- The `Metadata` of a plan resource: `Id`. -/
structure PlanMetadata where
  Id : String := ""

/-- One element of `servicePlans.Resources`. -/
structure ServicePlanResource where
  Metadata : PlanMetadata := {}

/-- The value returned by `cloudController.ServicePlans`. -/
structure ServicePlanList where
  Resources : List ServicePlanResource := []

/-- The interface `CloudController`, as the four calls the service makes. -/
structure CloudController where
  Spaces : String → Except Error Spaces
  SpaceSummary : String → Except Error SpaceSummary
  Services : Except Error ServiceList
  ServicePlans : String → Except Error ServicePlanList

/-- The interface `SpaceSummaryHelper`: its one method `getMapOfAppsByService`,
taking the label, the search string, the summary and the applications by name. -/
abbrev SpaceSummaryHelper :=
  String → String → SpaceSummary → GoMap Application → GoMap AtkInstance

/-- The struct `AtkListService` (the logger is left out). -/
structure AtkListService where
  SpaceSummaryHelper : SpaceSummaryHelper
  cloudController : CloudController

/-! ## Merging -/

/-- The method `(a *AtkInstances) Append(another *AtkInstances)`, returning the
new value of `a`. -/
def AtkInstances.Append (a another : AtkInstances) : AtkInstances :=
  let a1 : AtkInstances :=
    if another.ServicePlanGuid ≠ "" then
      { a with ServicePlanGuid := another.ServicePlanGuid,
               SeServicePlanGuid := another.SeServicePlanGuid }
    else a
  { a1 with Instances := a1.Instances ++ another.Instances }

/-- The fragments of a list merged one after the other into `AtkInstances{}`. -/
def mergeAll (l : List AtkInstances) : AtkInstances :=
  l.foldl AtkInstances.Append {}

/-- The two plan-id slots of a set: `(ServicePlanGuid, SeServicePlanGuid)`. -/
def planIds (a : AtkInstances) : String × String :=
  (a.ServicePlanGuid, a.SeServicePlanGuid)

/-- The per-slot rule of the specification: adopt the fragment's value when the
running value is empty and the fragment's value is not, else keep the running
value. It is stated only to be compared with `Append`. -/
def specSlot (running fragment : String) : String :=
  if running = "" ∧ fragment ≠ "" then fragment else running

/-! ## Ordering -/

/-- The method `ByName.Len`. -/
def ByName.Len (a : List AtkInstance) : Nat := a.length

/-- The method `ByName.Less`: `a[i].Name < a[j].Name`. The sort calls it with
indices in range only; out of range the embedding answers `false`. -/
def ByName.Less (a : List AtkInstance) (i j : Nat) : Bool :=
  match a[i]?, a[j]? with
  | some x, some y => decide (x.Name < y.Name)
  | _, _ => false

/-- The method `ByName.Swap`: `a[i], a[j] = a[j], a[i]`. The sort calls it with
indices in range only; out of range the embedding leaves the slice as it is. -/
def ByName.Swap (a : List AtkInstance) (i j : Nat) : List AtkInstance :=
  match a[i]?, a[j]? with
  | some x, some y => (a.set i y).set j x
  | _, _ => a

/-- The inner loop of the library's `insertionSort`:
`for j := i; j > a && data.Less(j, j-1); j-- { data.Swap(j, j-1) }`,
started at `j`. -/
def insertionInner (data : List AtkInstance) (a : Nat) : Nat → List AtkInstance
  | 0 => data
  | j + 1 =>
    if j + 1 > a && ByName.Less data (j + 1) j then
      insertionInner (ByName.Swap data (j + 1) j) a j
    else data

/-- The library's `insertionSort(data, a, b)`:
`for i := a + 1; i < b; i++ { inner loop started at i }`. -/
def insertionSort (data : List AtkInstance) (a b : Nat) : List AtkInstance :=
  (List.range' (a + 1) (b - (a + 1))).foldl (fun d i => insertionInner d a i) data

/-- The library function `sort.Sort` applied to a `ByName`. The Go standard
library is not part of the repository; `sort.Sort` is embedded by the routine
it runs on short slices, `insertionSort(data, 0, data.Len())`, which touches
the slice through `Len`, `Less` and `Swap` only. -/
def sortSort (data : List AtkInstance) : List AtkInstance :=
  insertionSort data 0 (ByName.Len data)

/-- The method `(a *AtkInstances) Sort()`, returning the new value of `a`. -/
def AtkInstances.Sort (a : AtkInstances) : AtkInstances :=
  { a with Instances := sortSort a.Instances }

/-! ## Plan resolution -/

/-- The method `servicePlanId`: the pair `(id, err)` it returns. -/
def servicePlanId (p : AtkListService) (Name : String) : String × Option Error :=
  match p.cloudController.Services with
  | .error err => ("", some err)
  | .ok services =>
    let servicePlansUrl : String :=
      services.Resources.foldl
        (fun url r => if r.Entity.Label = Name then r.Entity.ServicePlansUrl else url) ""
    if servicePlansUrl.length = 0 then
      ("", some "Service plans url is empty")
    else
      match p.cloudController.ServicePlans servicePlansUrl with
      | .error err => ("", some err)
      | .ok servicePlans =>
        match servicePlans.Resources with
        | [] => ("", some ("Could not find any service plan for: " ++ Name))
        | r :: _ => (r.Metadata.Id, none)

/-! ## Joining one space -/

/-- The loop `for commonService, atk := range atkMap { ... }` over the entries
not yet visited, with the buffer `instances` and the counter `j`; `none` when
the write `instances[j] = atk` is out of range. -/
def joinLoop (seMap : GoMap AtkInstance) :
    List (String × AtkInstance) → List AtkInstance → Nat → Option (List AtkInstance × Nat)
  | [], instances, j => some (instances, j)
  | (commonService, atk) :: rest, instances, j =>
    let se := seMap.get AtkInstance.zero commonService
    let atk1 := atk.setSeInstance (some se)
    if j < instances.length then
      joinLoop seMap rest (instances.set j atk1) (j + 1)
    else none

/-- Lines 159 to 168 of `getInstancesFromSpaceSummary`: the buffer of
`len(summary.Services)` zero values, the loop, and the slice `instances[:j]`. -/
def joinInstances (seMap atkMap : GoMap AtkInstance) (nServices : Nat) :
    Option (List AtkInstance) :=
  (joinLoop seMap atkMap.entries (List.replicate nServices AtkInstance.zero) 0).map
    (fun r => r.1.take r.2)

/-- The map `apps` built by the first loop: every application under its name. -/
def appsByName (summary : SpaceSummary) : GoMap Application :=
  summary.Apps.foldl (fun apps a => apps.insert a.Name a) GoMap.empty

/-- The method `getInstancesFromSpaceSummary`; `none` is the index-out-of-range
panic. -/
def getInstancesFromSpaceSummary (p : AtkListService)
    (atkLabel seLabel serviceSearchString : String) (summary : SpaceSummary) :
    Option (List AtkInstance) :=
  let apps := appsByName summary
  let seMap := p.SpaceSummaryHelper seLabel serviceSearchString summary apps
  let atkMap := p.SpaceSummaryHelper atkLabel serviceSearchString summary apps
  joinInstances seMap atkMap summary.Services.length

/-! ## Fan-out and collection -/

/-- What one space task sends: an error on `errorChan` or a fragment on
`instanceChan`. -/
inductive Outcome where
  | err (e : Error)
  | frag (f : AtkInstances)

/-- The fragment of a successful outcome. -/
def Outcome.frag? : Outcome → Option AtkInstances
  | .err _ => none
  | .frag f => some f

/-- The method `getSpaceInstances`: the one value the task sends; `none` when
the task panics in the join. -/
def getSpaceInstances (p : AtkListService) (atkLabel seLabel serviceSearchString : String)
    (space : String) : Option Outcome :=
  match p.cloudController.SpaceSummary space with
  | .error err => some (.err err)
  | .ok summary =>
    match getInstancesFromSpaceSummary p atkLabel seLabel serviceSearchString summary with
    | none => none
    | some atkInstanceList =>
      let atkPlan := (servicePlanId p atkLabel).1
      let sePlan := (servicePlanId p seLabel).1
      some (.frag ⟨atkInstanceList, atkPlan, sePlan⟩)

/-- One iteration of the collecting loop of `GetAllInstances`: the `select`
over the two channels. -/
def collectStep (atkInstances : AtkInstances) : Outcome → AtkInstances
  | .frag spaceInstances => atkInstances.Append spaceInstances
  | .err _ => atkInstances

/-- The collecting loop of `GetAllInstances` run on the outcomes in the order
in which they arrive, from `AtkInstances{}`. -/
def collect (outcomes : List Outcome) : AtkInstances :=
  outcomes.foldl collectStep {}

/-- The method `getSpaceList`. -/
def getSpaceList (p : AtkListService) (orgId : String) : Except Error (List String) :=
  match p.cloudController.Spaces orgId with
  | .error err => .error err
  | .ok spaces => .ok spaces.IdList

/-- What a call of `GetAllInstances` returns, `(result, err)`, together with
the spaces whose summary was requested during the call. -/
structure CallResult where
  result : Option AtkInstances
  err : Option Error
  queried : List String

/-- The order in which the tasks of a call deliver their outcome: some
permutation of the launched tasks. -/
abbrev Arrival := (l : List String) → { l1 : List String // l1.Perm l }

/-- The tasks started by `go p.getSpaceInstances(...)`, each run to the one
value it sends, listed in the order given; `none` when one of them panics. -/
def runTasks (task : String → Option Outcome) : List String → Option (List Outcome)
  | [] => some []
  | s :: rest =>
    match task s with
    | none => none
    | some o =>
      match runTasks task rest with
      | none => none
      | some outcomes => some (o :: outcomes)

/-- The method `GetAllInstances`, for a given arrival order of the task
outcomes; `none` when a task panics, which ends the program. -/
def GetAllInstances (p : AtkListService) (arrival : Arrival)
    (atkLabel seLabel commonService orgId : String) : Option CallResult :=
  match getSpaceList p orgId with
  | .error err => some ⟨none, some err, []⟩
  | .ok spaceList =>
    match runTasks (getSpaceInstances p atkLabel seLabel commonService)
        (arrival spaceList).1 with
    | none => none
    | some outcomes => some ⟨some (collect outcomes), none, (arrival spaceList).1⟩

/-- The instance the join keeps for one entry `(key, atk)` of the primary map:
`atk` with its companion field pointing at `seMap[key]`. -/
def joinEntry (seMap : GoMap AtkInstance) (e : String × AtkInstance) : AtkInstance :=
  e.2.setSeInstance (some (seMap.get AtkInstance.zero e.1))

/-- The sorted prefix after the inner loop of the insertion sort has moved `x`
down into it, both read backwards (nearest element first). -/
def insertRev (x : AtkInstance) : List AtkInstance → List AtkInstance
  | [] => [x]
  | y :: r => if x.Name < y.Name then y :: insertRev x r else x :: y :: r

/-! ## Name derivation -/

/-- The scan of the library function `strings.LastIndex(s, substr)` from the
position `i` towards the start: the greatest position not after `i` at which
`substr` occurs in `s`, or `-1`. -/
def lastIndexFrom (s substr : List Char) : Nat → Int
  | 0 => if substr.isPrefixOf s then 0 else -1
  | i + 1 =>
    if substr.isPrefixOf (s.drop (i + 1)) then ((i + 1 : Nat) : Int)
    else lastIndexFrom s substr i

/-- The library function `strings.LastIndex`: the index of the last instance of
`substr` in `s`, or `-1` if `substr` is not present. The Go standard library is
not part of the repository; the function is embedded by its documented result.
Positions count characters; for the separator `"-"`, a single byte that is
never part of a longer UTF-8 sequence, the slice cut at the position found is
the same as with byte positions. -/
def LastIndex (s substr : String) : Int :=
  lastIndexFrom s.data substr.data s.data.length

/-- The slice expression `s[:idx]`; `none` is the run-time panic for a bound
that is negative or beyond the length. -/
def sliceTo (s : String) (idx : Int) : Option String :=
  if 0 ≤ idx ∧ idx ≤ (s.length : Int) then some ⟨s.data.take idx.toNat⟩ else none

/-- The function `UuidToAppName`; `none` is the slice-bounds panic. -/
def UuidToAppName (uuid label : String) : Option String :=
  let idx := LastIndex uuid "-"
  (sliceTo uuid idx).map (fun head => label ++ "-" ++ head)

/-! ## Plan resolution, in two steps -/

/-- The loop of `servicePlanId` over `services.Resources`: the value of
`servicePlansUrl` when the loop ends. -/
def selectPlansUrl (resources : List ServiceResource) (Name : String) : String :=
  resources.foldl
    (fun url r => if r.Entity.Label = Name then r.Entity.ServicePlansUrl else url) ""

/-- Lines 101 to 114 of `servicePlanId`: what is returned once `servicePlansUrl`
is known. -/
def plansFrom (p : AtkListService) (Name servicePlansUrl : String) : String × Option Error :=
  if servicePlansUrl.length = 0 then
    ("", some "Service plans url is empty")
  else
    match p.cloudController.ServicePlans servicePlansUrl with
    | .error err => ("", some err)
    | .ok servicePlans =>
      match servicePlans.Resources with
      | [] => ("", some ("Could not find any service plan for: " ++ Name))
      | r :: _ => (r.Metadata.Id, none)

/-! ## The tasks and the collector over the two channels -/

/-- The body of `getSpaceInstances` as the sequence of channel sends it makes,
in order, before it returns (an error value is a send on `errorChan`, a
fragment a send on `instanceChan`): on a failed summary fetch the send of line
126 and the `return` of line 127; otherwise the send of line 142 alone. `none`
when the task panics in the join. -/
def getSpaceInstancesSends (p : AtkListService)
    (atkLabel seLabel serviceSearchString : String) (space : String) :
    Option (List Outcome) :=
  match p.cloudController.SpaceSummary space with
  | .error err => some [.err err]
  | .ok summary =>
    match getInstancesFromSpaceSummary p atkLabel seLabel serviceSearchString summary with
    | none => none
    | some atkInstanceList =>
      let atkPlan := (servicePlanId p atkLabel).1
      let sePlan := (servicePlanId p seLabel).1
      some [.frag ⟨atkInstanceList, atkPlan, sePlan⟩]

/-- A goroutine started by `go p.getSpaceInstances(...)`: the space it was
started for and the sends it has still to make. The channels are unbuffered,
so it waits on the first of them until the collector receives it. -/
structure Task where
  space : String
  sends : List Outcome

/-- The state of a call of `GetAllInstances` after the launching loop: the
goroutines, the iterations the collecting loop has left, the running set, and
the spaces whose task has been received from, in the order of the receives. -/
structure CallState where
  tasks : List Task
  remaining : Nat
  atkInstances : AtkInstances
  arrived : List String

/-- The launching loop `for _, s := range spaceList { go ... }`: one goroutine
per element of `spaceList`; `none` when one of them panics. -/
def launch (p : AtkListService) (atkLabel seLabel commonService : String) :
    List String → Option (List Task)
  | [] => some []
  | s :: rest =>
    match getSpaceInstancesSends p atkLabel seLabel commonService s with
    | none => none
    | some sends =>
      match launch p atkLabel seLabel commonService rest with
      | none => none
      | some tasks => some (⟨s, sends⟩ :: tasks)

/-- The state in which the collecting loop starts: the launched goroutines, one
iteration per element of `spaceList`, and `atkInstances := AtkInstances{}`. -/
def callStart (p : AtkListService) (atkLabel seLabel commonService : String)
    (spaceList : List String) : Option CallState :=
  match launch p atkLabel seLabel commonService spaceList with
  | none => none
  | some tasks => some ⟨tasks, spaceList.length, {}, []⟩

/-- One iteration of the collecting loop: the `select`, which listens on both
channels, receives the send on which the goroutine number `i` waits and runs
the matching case. There is no such step when the loop has ended, or when
there is no goroutine number `i`, or when that goroutine has no send to make. -/
def rendezvous (s : CallState) (i : Nat) : Option CallState :=
  if s.remaining = 0 then none
  else
    match s.tasks[i]? with
    | some ⟨space, o :: rest⟩ =>
      some ⟨s.tasks.set i ⟨space, rest⟩, s.remaining - 1,
        collectStep s.atkInstances o, s.arrived ++ [space]⟩
    | _ => none

/-- The iterations of a schedule, one after the other: the list names, for
every iteration, the goroutine received from; `none` when one of them is not
possible. -/
def runSchedule (s : CallState) : List Nat → Option CallState
  | [] => some s
  | i :: rest =>
    match rendezvous s i with
    | none => none
    | some s1 => runSchedule s1 rest

/-- The spaces of the sends that goroutines still have to make, one entry per
send. -/
def pendingSpaces (tasks : List Task) : List String :=
  (tasks.map (fun t => t.sends.map (fun _ => t.space))).flatten

/-- The arrival order that delivers the tasks of `spaceList` in the order
`arrived`, and those of any other list in the order of launch. -/
def arrivalAs (spaceList arrived : List String) (h : arrived.Perm spaceList) : Arrival :=
  fun l => if hl : l = spaceList then ⟨arrived, hl ▸ h⟩ else ⟨l, List.Perm.refl l⟩

/-- What holds of every state a call can reach while it collects from the
tasks launched for `spaceList`. -/
structure CallInv (p : AtkListService) (atkLabel seLabel commonService : String)
    (spaceList : List String) (s : CallState) : Prop where
  sends_ok : ∀ t ∈ s.tasks, ∀ o ∈ t.sends,
    getSpaceInstances p atkLabel seLabel commonService t.space = some o
  perm : (s.arrived ++ pendingSpaces s.tasks).Perm spaceList
  count : s.remaining = (pendingSpaces s.tasks).length
  collected : ∃ outcomes,
    runTasks (getSpaceInstances p atkLabel seLabel commonService) s.arrived = some outcomes ∧
    s.atkInstances = collect outcomes

/-! ## A sample space -/

/-- A sample primary map: the bindings `A` under `k1` and `B` under `k2`. -/
def sampleAtkMap : GoMap AtkInstance :=
  ⟨[("k1", AtkInstance.mk "A" "a.example" "ga" "k1" "STARTED" none),
    ("k2", AtkInstance.mk "B" "b.example" "gb" "k2" "STARTED" none)], by decide⟩

/-- A sample companion map: the binding `C` under `k1`. -/
def sampleSeMap : GoMap AtkInstance :=
  ⟨[("k1", AtkInstance.mk "C" "c.example" "gc" "k1" "STARTED" none)], by decide⟩

/-- A sample summary with three applications and three service bindings. -/
def sampleSummary : SpaceSummary :=
  { Apps := [{ Name := "A" }, { Name := "B" }, { Name := "C" }],
    Services := [{ Label := "atk", Guid := "k1", BoundApp := "A" },
                 { Label := "atk", Guid := "k2", BoundApp := "B" },
                 { Label := "se", Guid := "k1", BoundApp := "C" }] }

/-- A helper answering the two sample maps: the primary one for the label
`"atk"`, the companion one for any other label. -/
def sampleHelper : SpaceSummaryHelper :=
  fun label _ _ _ => if label = "atk" then sampleAtkMap else sampleSeMap

/-- A platform on which every call fails. -/
def downController : CloudController :=
  { Spaces := fun _ => .error "spaces unavailable",
    SpaceSummary := fun _ => .error "summary unavailable",
    Services := .error "services unavailable",
    ServicePlans := fun _ => .error "plans unavailable" }

/-- A platform with the two spaces `s1` and `s2`: the summary of `s1` is the
sample summary, that of `s2` cannot be fetched, and the catalog is down. -/
def sampleController : CloudController :=
  { Spaces := fun _ => .ok { IdList := ["s1", "s2"] },
    SpaceSummary := fun s => if s = "s1" then .ok sampleSummary else .error "no summary",
    Services := .error "services unavailable",
    ServicePlans := fun _ => .error "plans unavailable" }

/-- The order of arrival that is the order of launch. -/
def arrivalInOrder : Arrival := fun l => ⟨l, List.Perm.refl l⟩

/-- The order of arrival that is the reverse of the order of launch. -/
def arrivalReversed : Arrival := fun l => ⟨l.reverse, List.reverse_perm l⟩

/-- A platform with a catalog of three entries: two with the label `atk`, the
later of them with the plans url `/v2/atk/plans`, and one with the label `se`
and no plans url. The plans url `/v2/atk/plans` lists two plans. -/
def catalogController : CloudController :=
  { Spaces := fun _ => .ok { IdList := ["s1"] },
    SpaceSummary := fun _ => .ok sampleSummary,
    Services := .ok { Resources :=
      [{ Entity := { Label := "atk", ServicePlansUrl := "/v2/atk/old" } },
       { Entity := { Label := "se", ServicePlansUrl := "" } },
       { Entity := { Label := "atk", ServicePlansUrl := "/v2/atk/plans" } }] },
    ServicePlans := fun url =>
      if url = "/v2/atk/plans" then
        .ok { Resources := [{ Metadata := { Id := "plan-1" } }, { Metadata := { Id := "plan-2" } }] }
      else .error "no plans" }

/-- A platform whose catalog has two entries with the label `atk`: the first
with a usable plans url, the last with an empty one. -/
def lastEmptyController : CloudController :=
  { Spaces := fun _ => .ok { IdList := ["s1"] },
    SpaceSummary := fun _ => .ok sampleSummary,
    Services := .ok { Resources :=
      [{ Entity := { Label := "atk", ServicePlansUrl := "/v2/atk/plans" } },
       { Entity := { Label := "atk", ServicePlansUrl := "" } }] },
    ServicePlans := fun _ =>
      .ok { Resources := [{ Metadata := { Id := "plan-1" } }] } }

/-! ## The helper, from the specification -/

/-- Modelled from the spec: the method `getMapOfAppsByService` of the helper,
whose implementation is not among the files of the service read here. "Build a
mapping from correlation key to Instance for the label, restricted to bindings
whose descriptor contains the filter substring. Each Instance's URL/state/guid
fields are populated from the matching application record; its service-binding
identifier becomes the mapping key." -/
def specGetMapOfAppsByService : SpaceSummaryHelper :=
  fun label serviceSearchString summary apps =>
    summary.Services.foldl
      (fun m s =>
        if s.Label = label ∧ serviceSearchString.data <:+: s.Name.data then
          let app := apps.get {} s.BoundApp
          m.insert s.Guid (AtkInstance.mk app.Name app.Url app.Guid s.Guid app.State none)
        else m)
      GoMap.empty

/-! ## Merging: the plan-id slots -/

theorem Append_ServicePlanGuid (a b : AtkInstances) :
    (a.Append b).ServicePlanGuid =
      if b.ServicePlanGuid ≠ "" then b.ServicePlanGuid else a.ServicePlanGuid := by
  unfold AtkInstances.Append
  split <;> simp_all

theorem Append_SeServicePlanGuid (a b : AtkInstances) :
    (a.Append b).SeServicePlanGuid =
      if b.ServicePlanGuid ≠ "" then b.SeServicePlanGuid else a.SeServicePlanGuid := by
  unfold AtkInstances.Append
  split <;> simp_all

theorem Append_Instances (a b : AtkInstances) :
    (a.Append b).Instances = a.Instances ++ b.Instances := by
  unfold AtkInstances.Append
  split <;> simp_all

/-- C1 (as stated, refuted): merging the fragments with plan ids `("", "p1")`
and then `("p2", "")` into the empty set gives `("p2", "")`, not `("p2", "p1")`,
and already the first merge departs from the per-slot rule: the companion slot
stays empty although the fragment carries `"p1"`. -/
theorem Append_slots_independent_counterexample :
    planIds (mergeAll [⟨[], "", "p1"⟩, ⟨[], "p2", ""⟩]) = ("p2", "") ∧
    planIds (mergeAll [⟨[], "", "p1"⟩, ⟨[], "p2", ""⟩]) ≠ ("p2", "p1") ∧
    ((({} : AtkInstances).Append ⟨[], "", "p1"⟩).SeServicePlanGuid = "" ∧
      specSlot ({} : AtkInstances).SeServicePlanGuid "p1" = "p1") := by
  decide

/-- C1 (amended): `Append` moves the two plan ids together, on the primary
slot of the fragment alone: when `b.ServicePlanGuid` is non-empty both slots of
the result are those of `b`, otherwise both are those of `a`; merging
`("", "p1")` and then `("p2", "")` into the empty set yields `("p2", "")`. -/
theorem Append_planIds (a b : AtkInstances) :
    planIds (a.Append b) = (if b.ServicePlanGuid ≠ "" then planIds b else planIds a) ∧
    planIds (mergeAll [⟨[], "", "p1"⟩, ⟨[], "p2", ""⟩]) = ("p2", "") := by
  refine ⟨?_, by decide⟩
  unfold planIds
  rw [Append_ServicePlanGuid, Append_SeServicePlanGuid]
  split <;> rfl

/-! ## Merging: many fragments -/

/-- A slot that `Append` takes from the fragment exactly when the fragment's
primary plan id is set, followed through a whole sequence of merges in which
all such fragments agree on the slot. -/
theorem foldl_Append_slot (g : AtkInstances → String)
    (hg : ∀ a b : AtkInstances,
      g (a.Append b) = if b.ServicePlanGuid ≠ "" then g b else g a)
    (v : String) (l : List AtkInstances) (a : AtkInstances)
    (h : ∀ f ∈ l, f.ServicePlanGuid ≠ "" → g f = v) :
    g (l.foldl AtkInstances.Append a) =
      if ∀ f ∈ l, f.ServicePlanGuid = "" then g a else v := by
  induction l generalizing a with
  | nil => simp
  | cons b t ih =>
    rw [List.foldl_cons, ih (a.Append b) (fun f hf => h f (List.mem_cons_of_mem _ hf)), hg]
    by_cases hb : b.ServicePlanGuid = ""
    · simp [hb]
    · have hv := h b (List.mem_cons_self _ _) hb
      simp [hb, hv]

theorem foldl_Append_ServicePlanGuid_ne (l : List AtkInstances) (a : AtkInstances)
    (h : a.ServicePlanGuid ≠ "") : (l.foldl AtkInstances.Append a).ServicePlanGuid ≠ "" := by
  induction l generalizing a with
  | nil => simpa using h
  | cons b t ih =>
    rw [List.foldl_cons]
    apply ih
    rw [Append_ServicePlanGuid]
    split <;> assumption

theorem foldl_Append_SeServicePlanGuid_ne (l : List AtkInstances) (a : AtkInstances)
    (h : a.SeServicePlanGuid ≠ "")
    (hl : ∀ f ∈ l, f.ServicePlanGuid ≠ "" → f.SeServicePlanGuid ≠ "") :
    (l.foldl AtkInstances.Append a).SeServicePlanGuid ≠ "" := by
  induction l generalizing a with
  | nil => simpa using h
  | cons b t ih =>
    rw [List.foldl_cons]
    apply ih _ _ (fun f hf => hl f (List.mem_cons_of_mem _ hf))
    rw [Append_SeServicePlanGuid]
    split
    · exact hl b (List.mem_cons_self _ _) (by assumption)
    · exact h

/-- C2 (as stated, refuted): the two fragments `("P", "")` and `("P", "S")`
satisfy the hypothesis of the claim (primary empty or `"P"`, companion empty or
`"S"`), yet merged in one order they give `("P", "S")` and in the other
`("P", "")`. -/
theorem mergeAll_planIds_order_counterexample :
    (∀ f ∈ [(⟨[], "P", ""⟩ : AtkInstances), ⟨[], "P", "S"⟩],
      (f.ServicePlanGuid = "" ∨ f.ServicePlanGuid = "P") ∧
      (f.SeServicePlanGuid = "" ∨ f.SeServicePlanGuid = "S")) ∧
    List.Perm [(⟨[], "P", ""⟩ : AtkInstances), ⟨[], "P", "S"⟩]
      [⟨[], "P", "S"⟩, ⟨[], "P", ""⟩] ∧
    planIds (mergeAll [⟨[], "P", ""⟩, ⟨[], "P", "S"⟩]) = ("P", "S") ∧
    planIds (mergeAll [⟨[], "P", "S"⟩, ⟨[], "P", ""⟩]) = ("P", "") ∧
    planIds (mergeAll [⟨[], "P", ""⟩, ⟨[], "P", "S"⟩]) ≠
      planIds (mergeAll [⟨[], "P", "S"⟩, ⟨[], "P", ""⟩]) := by
  refine ⟨by decide, List.Perm.swap _ _ _, by decide, by decide, by decide⟩

/-- C2 (amended): for a list of fragments in which every primary plan id is
empty or one common value `P` and every fragment with a non-empty primary plan
id carries one common companion plan id `S`, merging from the empty set gives
the same `(ServicePlanGuid, SeServicePlanGuid)` for every permutation. -/
theorem mergeAll_planIds_perm (P S : String) (l l1 : List AtkInstances)
    (hperm : l1.Perm l)
    (hP : ∀ f ∈ l, f.ServicePlanGuid = "" ∨ f.ServicePlanGuid = P)
    (hS : ∀ f ∈ l, f.ServicePlanGuid ≠ "" → f.SeServicePlanGuid = S) :
    planIds (mergeAll l1) = planIds (mergeAll l) := by
  have hP1 : ∀ f ∈ l1, f.ServicePlanGuid ≠ "" → f.ServicePlanGuid = P :=
    fun f hf hne => (hP f (hperm.mem_iff.1 hf)).resolve_left hne
  have hP0 : ∀ f ∈ l, f.ServicePlanGuid ≠ "" → f.ServicePlanGuid = P :=
    fun f hf hne => (hP f hf).resolve_left hne
  have hS1 : ∀ f ∈ l1, f.ServicePlanGuid ≠ "" → f.SeServicePlanGuid = S :=
    fun f hf hne => hS f (hperm.mem_iff.1 hf) hne
  have hiff : (∀ f ∈ l1, f.ServicePlanGuid = "") ↔ (∀ f ∈ l, f.ServicePlanGuid = "") :=
    ⟨fun h f hf => h f (hperm.mem_iff.2 hf), fun h f hf => h f (hperm.mem_iff.1 hf)⟩
  unfold planIds mergeAll
  rw [foldl_Append_slot AtkInstances.ServicePlanGuid Append_ServicePlanGuid P l1 _ hP1,
    foldl_Append_slot AtkInstances.ServicePlanGuid Append_ServicePlanGuid P l _ hP0,
    foldl_Append_slot AtkInstances.SeServicePlanGuid Append_SeServicePlanGuid S l1 _ hS1,
    foldl_Append_slot AtkInstances.SeServicePlanGuid Append_SeServicePlanGuid S l _ hS]
  simp only [hiff]

/-- Witness of C2 (amended): the fragments `("", "p1")`, `("P", "S")` and
`("P", "S")` in two orders. -/
theorem mergeAll_planIds_perm_witness :
    planIds (mergeAll [⟨[], "P", "S"⟩, ⟨[], "", "p1"⟩, ⟨[], "P", "S"⟩]) =
      planIds (mergeAll [⟨[], "", "p1"⟩, ⟨[], "P", "S"⟩, ⟨[], "P", "S"⟩]) :=
  mergeAll_planIds_perm "P" "S" [⟨[], "", "p1"⟩, ⟨[], "P", "S"⟩, ⟨[], "P", "S"⟩]
    [⟨[], "P", "S"⟩, ⟨[], "", "p1"⟩, ⟨[], "P", "S"⟩]
    (List.Perm.swap _ _ _) (by decide) (by decide)

/-- C3 (as stated, refuted): after the fragment `("p", "s")` the companion plan
id is `"s"`; merging the later fragment `("q", "")` replaces it with the empty
string. -/
theorem SeServicePlanGuid_reset_counterexample :
    (mergeAll [⟨[], "p", "s"⟩]).SeServicePlanGuid = "s" ∧
    (mergeAll ([⟨[], "p", "s"⟩] ++ [⟨[], "q", ""⟩])).SeServicePlanGuid = "" := by
  decide

/-- C3 (amended): in a sequence of merges from the empty set, once
`ServicePlanGuid` is non-empty it stays non-empty after every later merge;
`SeServicePlanGuid`, once non-empty, stays non-empty as long as every later
fragment with a non-empty `ServicePlanGuid` has a non-empty
`SeServicePlanGuid`. -/
theorem mergeAll_planIds_stay_set (l1 l2 : List AtkInstances) :
    ((mergeAll l1).ServicePlanGuid ≠ "" →
      (mergeAll (l1 ++ l2)).ServicePlanGuid ≠ "") ∧
    ((mergeAll l1).SeServicePlanGuid ≠ "" →
      (∀ f ∈ l2, f.ServicePlanGuid ≠ "" → f.SeServicePlanGuid ≠ "") →
      (mergeAll (l1 ++ l2)).SeServicePlanGuid ≠ "") := by
  unfold mergeAll
  rw [List.foldl_append]
  exact ⟨foldl_Append_ServicePlanGuid_ne l2 _, foldl_Append_SeServicePlanGuid_ne l2 _⟩

/-- Witness of C3 (amended): after `("p", "s")`, the later fragments
`("", "x")` and `("q", "t")` leave both plan ids non-empty. -/
theorem mergeAll_planIds_stay_set_witness :
    (mergeAll ([⟨[], "p", "s"⟩] ++ [⟨[], "", "x"⟩, ⟨[], "q", "t"⟩])).ServicePlanGuid ≠ "" ∧
    (mergeAll ([⟨[], "p", "s"⟩] ++ [⟨[], "", "x"⟩, ⟨[], "q", "t"⟩])).SeServicePlanGuid ≠ "" :=
  ⟨(mergeAll_planIds_stay_set [⟨[], "p", "s"⟩] [⟨[], "", "x"⟩, ⟨[], "q", "t"⟩]).1 (by decide),
   (mergeAll_planIds_stay_set [⟨[], "p", "s"⟩] [⟨[], "", "x"⟩, ⟨[], "q", "t"⟩]).2
     (by decide) (by decide)⟩

/-! ## Collection -/

theorem foldl_collectStep (outcomes : List Outcome) (acc : AtkInstances) :
    outcomes.foldl collectStep acc =
      (outcomes.filterMap Outcome.frag?).foldl AtkInstances.Append acc := by
  induction outcomes generalizing acc with
  | nil => rfl
  | cons o t ih =>
    cases o with
    | err e => simpa [collectStep, Outcome.frag?] using ih acc
    | frag f => simpa [collectStep, Outcome.frag?] using ih (acc.Append f)

theorem foldl_Append_Instances (l : List AtkInstances) (acc : AtkInstances) :
    (l.foldl AtkInstances.Append acc).Instances =
      acc.Instances ++ (l.map AtkInstances.Instances).flatten := by
  induction l generalizing acc with
  | nil => simp
  | cons f t ih => simp [ih, Append_Instances]

/-- C4: whatever outcomes arrive and in whatever order, the collecting loop of
`GetAllInstances` ends with the merge of the successful fragments alone, taken
in arrival order: an error outcome leaves the running set as it is, and
`Instances` is the concatenation of the instance lists of the successful
fragments. -/
theorem collect_eq_mergeAll_fragments (outcomes : List Outcome) :
    collect outcomes = mergeAll (outcomes.filterMap Outcome.frag?) ∧
    (collect outcomes).Instances =
      ((outcomes.filterMap Outcome.frag?).map AtkInstances.Instances).flatten ∧
    (∀ (acc : AtkInstances) (e : Error), collectStep acc (Outcome.err e) = acc) := by
  refine ⟨foldl_collectStep outcomes {}, ?_, fun _ _ => rfl⟩
  unfold collect
  rw [foldl_collectStep, foldl_Append_Instances]
  rfl

/-! ## The join loop -/

theorem take_succ_set {α : Type} (l : List α) (j : Nat) (x : α) (h : j < l.length) :
    (l.set j x).take (j + 1) = l.take j ++ [x] := by
  rw [List.set_eq_take_append_cons_drop, if_pos h]
  have hlen : (List.take j l).length = j := by simp; omega
  rw [List.take_append_eq_append_take, hlen]
  simp

theorem joinLoop_some (seMap : GoMap AtkInstance) (es : List (String × AtkInstance))
    (instances : List AtkInstance) (j : Nat) (h : j + es.length ≤ instances.length) :
    ∃ r, joinLoop seMap es instances j = some (r, j + es.length) ∧
      r.take (j + es.length) = instances.take j ++ es.map (joinEntry seMap) := by
  induction es generalizing instances j with
  | nil => exact ⟨instances, rfl, by simp⟩
  | cons e rest ih =>
    obtain ⟨k, atk⟩ := e
    have hj : j < instances.length := by simp at h; omega
    have h1 : (j + 1) + rest.length ≤
        (instances.set j (atk.setSeInstance (some (seMap.get AtkInstance.zero k)))).length := by
      simp at h ⊢; omega
    obtain ⟨r, hr, ht⟩ := ih _ (j + 1) h1
    refine ⟨r, ?_, ?_⟩
    · simp only [joinLoop, if_pos hj, hr, List.length_cons]
      congr 2; omega
    · have e1 : j + (List.length ((k, atk) :: rest)) = j + 1 + rest.length := by
        simp; omega
      rw [e1, ht, take_succ_set _ _ _ hj]
      simp [joinEntry]

theorem joinLoop_none (seMap : GoMap AtkInstance) (es : List (String × AtkInstance))
    (instances : List AtkInstance) (j : Nat) (hj0 : j ≤ instances.length)
    (h : instances.length < j + es.length) :
    joinLoop seMap es instances j = none := by
  induction es generalizing instances j with
  | nil => simp at h; omega
  | cons e rest ih =>
    obtain ⟨k, atk⟩ := e
    by_cases hj : j < instances.length
    · simp only [joinLoop, if_pos hj]
      apply ih
      · simp; omega
      · simp at h ⊢; omega
    · simp only [joinLoop, if_neg hj]

theorem joinInstances_eq (seMap atkMap : GoMap AtkInstance) (n : Nat) :
    joinInstances seMap atkMap n =
      if atkMap.size ≤ n then some (atkMap.entries.map (joinEntry seMap)) else none := by
  unfold joinInstances GoMap.size
  split
  · rename_i h
    obtain ⟨r, hr, ht⟩ := joinLoop_some seMap atkMap.entries
      (List.replicate n AtkInstance.zero) 0 (by simpa using h)
    rw [hr]
    simp at ht
    simp [ht]
  · rename_i h
    rw [joinLoop_none seMap atkMap.entries _ 0 (by simp) (by simp; omega)]
    rfl

/-! ## The join of one space -/

theorem getInstancesFromSpaceSummary_eq (p : AtkListService)
    (atkLabel seLabel serviceSearchString : String) (summary : SpaceSummary)
    (hbound : (p.SpaceSummaryHelper atkLabel serviceSearchString summary
      (appsByName summary)).size ≤ summary.Services.length) :
    getInstancesFromSpaceSummary p atkLabel seLabel serviceSearchString summary =
      some ((p.SpaceSummaryHelper atkLabel serviceSearchString summary
          (appsByName summary)).entries.map
        (joinEntry (p.SpaceSummaryHelper seLabel serviceSearchString summary
          (appsByName summary)))) := by
  unfold getInstancesFromSpaceSummary
  simp only [joinInstances_eq, if_pos hbound]

theorem joinEntry_fields (seMap : GoMap AtkInstance) (e : String × AtkInstance) :
    (joinEntry seMap e).Name = e.2.Name ∧ (joinEntry seMap e).Url = e.2.Url ∧
    (joinEntry seMap e).Guid = e.2.Guid ∧ (joinEntry seMap e).ServiceGuid = e.2.ServiceGuid ∧
    (joinEntry seMap e).State = e.2.State ∧
    (joinEntry seMap e).SeInstance = some (seMap.get AtkInstance.zero e.1) := by
  obtain ⟨k, atk⟩ := e
  cases atk
  simp [joinEntry, AtkInstance.setSeInstance, AtkInstance.Name, AtkInstance.Url,
    AtkInstance.Guid, AtkInstance.ServiceGuid, AtkInstance.State, AtkInstance.SeInstance]

theorem GoMap_get_of_absent {V : Type} (m : GoMap V) (z : V) (k : String)
    (h : k ∉ m.keys) : m.get z k = z := by
  have hn : m.entries.lookup k = none := by
    rw [List.lookup_eq_none_iff]
    intro e he
    simp only [bne_iff_ne, ne_eq]
    intro hk
    exact h (List.mem_map.2 ⟨e, he, hk.symm⟩)
  simp [GoMap.get, GoMap.lookup, hn]

/-- C6 (as stated, refuted): with primary bindings `A` under `k1` and `B` under
`k2` and the companion binding `C` under `k1`, the key `k2` is absent from the
companion map, yet the instance for `B` has a companion field that is set: it
points at a zero-valued instance. -/
theorem absent_companion_counterexample :
    getInstancesFromSpaceSummary ⟨sampleHelper, downController⟩ "atk" "se" "" sampleSummary =
      some [AtkInstance.mk "A" "a.example" "ga" "k1" "STARTED"
              (some (AtkInstance.mk "C" "c.example" "gc" "k1" "STARTED" none)),
            AtkInstance.mk "B" "b.example" "gb" "k2" "STARTED"
              (some (AtkInstance.mk "" "" "" "" "" none))] ∧
    "k2" ∉ sampleSeMap.keys ∧
    (AtkInstance.mk "B" "b.example" "gb" "k2" "STARTED"
      (some (AtkInstance.mk "" "" "" "" "" none))).SeInstance ≠ none := by
  refine ⟨rfl, by decide, ?_⟩
  simp [AtkInstance.SeInstance]

/-- C6 (amended): when the primary map fits the buffer, the join returns one
instance per entry of the primary map, and for every key of the primary map
that is absent from the companion map the companion field of the instance is
set and points at the zero-valued instance (empty strings, nil companion). -/
theorem getInstancesFromSpaceSummary_absent_companion (p : AtkListService)
    (atkLabel seLabel serviceSearchString : String) (summary : SpaceSummary)
    (hbound : (p.SpaceSummaryHelper atkLabel serviceSearchString summary
      (appsByName summary)).size ≤ summary.Services.length) :
    ∃ out, getInstancesFromSpaceSummary p atkLabel seLabel serviceSearchString summary =
        some out ∧
      List.Forall₂
        (fun (e : String × AtkInstance) (o : AtkInstance) =>
          e.1 ∉ (p.SpaceSummaryHelper seLabel serviceSearchString summary
              (appsByName summary)).keys →
            o.SeInstance = some AtkInstance.zero)
        (p.SpaceSummaryHelper atkLabel serviceSearchString summary
          (appsByName summary)).entries out := by
  refine ⟨_, getInstancesFromSpaceSummary_eq p atkLabel seLabel serviceSearchString summary
    hbound, ?_⟩
  rw [List.forall₂_map_right_iff, List.forall₂_same]
  intro e _ habs
  rw [(joinEntry_fields _ e).2.2.2.2.2, GoMap_get_of_absent _ _ _ habs]

/-- Witness of C6 (amended): the sample space, whose primary map has two keys
for a summary of three bindings. -/
theorem getInstancesFromSpaceSummary_absent_companion_witness :
    ∃ out, getInstancesFromSpaceSummary ⟨sampleHelper, downController⟩ "atk" "se" ""
        sampleSummary = some out ∧
      List.Forall₂
        (fun (e : String × AtkInstance) (o : AtkInstance) =>
          e.1 ∉ (sampleHelper "se" "" sampleSummary (appsByName sampleSummary)).keys →
            o.SeInstance = some AtkInstance.zero)
        (sampleHelper "atk" "" sampleSummary (appsByName sampleSummary)).entries out :=
  getInstancesFromSpaceSummary_absent_companion ⟨sampleHelper, downController⟩ "atk" "se" ""
    sampleSummary (by decide)

/-- C7: when the primary map has at most `len(summary.Services)` keys, the join
returns exactly one instance per entry of the primary map, in the order the
loop visits them, so as many instances as the primary map has keys; each
instance has the name, url, guid, service guid and state of the primary map's
value for its key, and its companion field holds the companion map's instance
for the same key whenever the companion map has that key. The output is indexed
by the entries of the primary map alone: a key of the companion map only gives
no instance. -/
theorem getInstancesFromSpaceSummary_join (p : AtkListService)
    (atkLabel seLabel serviceSearchString : String) (summary : SpaceSummary)
    (hbound : (p.SpaceSummaryHelper atkLabel serviceSearchString summary
      (appsByName summary)).size ≤ summary.Services.length) :
    ∃ out, getInstancesFromSpaceSummary p atkLabel seLabel serviceSearchString summary =
        some out ∧
      out.length = (p.SpaceSummaryHelper atkLabel serviceSearchString summary
        (appsByName summary)).keys.length ∧
      List.Forall₂
        (fun (e : String × AtkInstance) (o : AtkInstance) =>
          o.Name = e.2.Name ∧ o.Url = e.2.Url ∧ o.Guid = e.2.Guid ∧
          o.ServiceGuid = e.2.ServiceGuid ∧ o.State = e.2.State ∧
          ∀ se, (p.SpaceSummaryHelper seLabel serviceSearchString summary
              (appsByName summary)).lookup e.1 = some se → o.SeInstance = some se)
        (p.SpaceSummaryHelper atkLabel serviceSearchString summary
          (appsByName summary)).entries out := by
  refine ⟨_, getInstancesFromSpaceSummary_eq p atkLabel seLabel serviceSearchString summary
    hbound, by simp [GoMap.keys], ?_⟩
  rw [List.forall₂_map_right_iff, List.forall₂_same]
  intro e _
  obtain ⟨h1, h2, h3, h4, h5, h6⟩ := joinEntry_fields
    (p.SpaceSummaryHelper seLabel serviceSearchString summary (appsByName summary)) e
  refine ⟨h1, h2, h3, h4, h5, ?_⟩
  intro se hse
  rw [h6, GoMap.get, hse]
  rfl

/-- Witness of C7: the sample space; the join gives `A` with the companion `C`
and `B`, and nothing for a key of the companion map alone. -/
theorem getInstancesFromSpaceSummary_join_witness :
    ∃ out, getInstancesFromSpaceSummary ⟨sampleHelper, downController⟩ "atk" "se" ""
        sampleSummary = some out ∧
      out.length = (sampleHelper "atk" "" sampleSummary (appsByName sampleSummary)).keys.length ∧
      List.Forall₂
        (fun (e : String × AtkInstance) (o : AtkInstance) =>
          o.Name = e.2.Name ∧ o.Url = e.2.Url ∧ o.Guid = e.2.Guid ∧
          o.ServiceGuid = e.2.ServiceGuid ∧ o.State = e.2.State ∧
          ∀ se, (sampleHelper "se" "" sampleSummary (appsByName sampleSummary)).lookup e.1 =
              some se → o.SeInstance = some se)
        (sampleHelper "atk" "" sampleSummary (appsByName sampleSummary)).entries out :=
  getInstancesFromSpaceSummary_join ⟨sampleHelper, downController⟩ "atk" "se" ""
    sampleSummary (by decide)

/-! ## The helper of the specification fits the buffer -/

theorem GoMap_size_insert_le {V : Type} (m : GoMap V) (k : String) (v : V) :
    (m.insert k v).size ≤ m.size + 1 := by
  unfold GoMap.insert GoMap.size
  simp only [List.length_cons]
  exact Nat.succ_le_succ (List.length_filter_le _ _)

theorem GoMap_size_foldl_le {V σ : Type} (step : GoMap V → σ → GoMap V)
    (hstep : ∀ m s, (step m s).size ≤ m.size + 1) (l : List σ) (m : GoMap V) :
    (l.foldl step m).size ≤ m.size + l.length := by
  induction l generalizing m with
  | nil => simp
  | cons s t ih =>
    rw [List.foldl_cons, List.length_cons]
    have h1 := ih (step m s)
    have h2 := hstep m s
    omega

theorem specGetMapOfAppsByService_size (label serviceSearchString : String)
    (summary : SpaceSummary) (apps : GoMap Application) :
    (specGetMapOfAppsByService label serviceSearchString summary apps).size ≤
      summary.Services.length := by
  unfold specGetMapOfAppsByService
  have h := GoMap_size_foldl_le
    (fun (m : GoMap AtkInstance) (s : Service) =>
      if s.Label = label ∧ serviceSearchString.data <:+: s.Name.data then
        let app := apps.get {} s.BoundApp
        m.insert s.Guid (AtkInstance.mk app.Name app.Url app.Guid s.Guid app.State none)
      else m)
    (by
      intro m s
      dsimp only
      split
      · exact GoMap_size_insert_le _ _ _
      · exact Nat.le_succ _)
    summary.Services GoMap.empty
  simpa [GoMap.empty, GoMap.size] using h

/-- C8: with the helper as the specification describes it (at most one key per
service binding of the summary), `getInstancesFromSpaceSummary` returns a
sequence of instances for every summary, also one without applications or
without services: no write of the loop falls outside the buffer of
`len(summary.Services)` entries, and the result is no longer than the buffer. -/
theorem getInstancesFromSpaceSummary_never_fails (cc : CloudController)
    (atkLabel seLabel serviceSearchString : String) (summary : SpaceSummary) :
    ∃ out, getInstancesFromSpaceSummary ⟨specGetMapOfAppsByService, cc⟩
        atkLabel seLabel serviceSearchString summary = some out ∧
      out.length ≤ summary.Services.length := by
  have hbound := specGetMapOfAppsByService_size atkLabel serviceSearchString summary
    (appsByName summary)
  refine ⟨_, getInstancesFromSpaceSummary_eq ⟨specGetMapOfAppsByService, cc⟩
    atkLabel seLabel serviceSearchString summary hbound, ?_⟩
  simpa [GoMap.size] using hbound

/-! ## The whole call -/

theorem runTasks_some_of_forall (task : String → Option Outcome) (l : List String)
    (h : ∀ x ∈ l, ∃ y, task x = some y) : ∃ ys, runTasks task l = some ys := by
  induction l with
  | nil => exact ⟨[], rfl⟩
  | cons x t ih =>
    obtain ⟨y, hy⟩ := h x (List.mem_cons_self _ _)
    obtain ⟨ys, hys⟩ := ih (fun z hz => h z (List.mem_cons_of_mem _ hz))
    exact ⟨y :: ys, by simp [runTasks, hy, hys]⟩

theorem getSpaceInstances_some (p : AtkListService)
    (atkLabel seLabel serviceSearchString space : String)
    (hbound : ∀ summary, p.cloudController.SpaceSummary space = .ok summary →
      (p.SpaceSummaryHelper atkLabel serviceSearchString summary
        (appsByName summary)).size ≤ summary.Services.length) :
    ∃ o, getSpaceInstances p atkLabel seLabel serviceSearchString space = some o := by
  unfold getSpaceInstances
  cases hs : p.cloudController.SpaceSummary space with
  | error err => exact ⟨_, rfl⟩
  | ok summary =>
    simp only [getInstancesFromSpaceSummary_eq p atkLabel seLabel serviceSearchString summary
      (hbound summary hs)]
    exact ⟨_, rfl⟩

/-- C5: `GetAllInstances` returns a non-nil error exactly when listing the
spaces fails. In that case the error is the listing error, the result is nil
and no space summary is requested. When listing succeeds every return carries a
nil error and a result, the one collected from the task outcomes, whatever
summary fetches or plan resolutions failed; and the call does return when no
task overruns its buffer. -/
theorem GetAllInstances_error_iff (p : AtkListService) (arrival : Arrival)
    (atkLabel seLabel commonService orgId : String) :
    (∀ e, p.cloudController.Spaces orgId = .error e →
      GetAllInstances p arrival atkLabel seLabel commonService orgId =
        some ⟨none, some e, []⟩) ∧
    (∀ r, GetAllInstances p arrival atkLabel seLabel commonService orgId = some r →
      (r.err ≠ none ↔ ∃ e, p.cloudController.Spaces orgId = .error e)) ∧
    (∀ spaces, p.cloudController.Spaces orgId = .ok spaces →
      ∀ r, GetAllInstances p arrival atkLabel seLabel commonService orgId = some r →
        r.err = none ∧
        ∃ outcomes, runTasks (getSpaceInstances p atkLabel seLabel commonService)
            (arrival spaces.IdList).1 = some outcomes ∧
          r.result = some (collect outcomes)) ∧
    (∀ spaces, p.cloudController.Spaces orgId = .ok spaces →
      (∀ space summary, p.cloudController.SpaceSummary space = .ok summary →
        (p.SpaceSummaryHelper atkLabel commonService summary
          (appsByName summary)).size ≤ summary.Services.length) →
      ∃ a, GetAllInstances p arrival atkLabel seLabel commonService orgId =
        some ⟨some a, none, (arrival spaces.IdList).1⟩) := by
  have hok : ∀ spaces, p.cloudController.Spaces orgId = .ok spaces →
      ∀ r, GetAllInstances p arrival atkLabel seLabel commonService orgId = some r →
        r.err = none ∧
        ∃ outcomes, runTasks (getSpaceInstances p atkLabel seLabel commonService)
            (arrival spaces.IdList).1 = some outcomes ∧
          r.result = some (collect outcomes) := by
    intro spaces hs r hr
    unfold GetAllInstances getSpaceList at hr
    rw [hs] at hr
    dsimp only at hr
    cases hm : runTasks (getSpaceInstances p atkLabel seLabel commonService)
        (arrival spaces.IdList).1 with
    | none => rw [hm] at hr; cases hr
    | some outcomes =>
      rw [hm] at hr
      cases hr
      exact ⟨rfl, outcomes, rfl, rfl⟩
  have herr : ∀ e, p.cloudController.Spaces orgId = .error e →
      GetAllInstances p arrival atkLabel seLabel commonService orgId =
        some ⟨none, some e, []⟩ := by
    intro e he
    unfold GetAllInstances getSpaceList
    rw [he]
  refine ⟨herr, ?_, hok, ?_⟩
  · intro r hr
    cases hs : p.cloudController.Spaces orgId with
    | error e =>
      rw [herr e hs] at hr
      cases hr
      simp
    | ok spaces =>
      have := (hok spaces hs r hr).1
      simp [this]
  · intro spaces hs hbound
    obtain ⟨outcomes, hm⟩ := runTasks_some_of_forall
      (getSpaceInstances p atkLabel seLabel commonService) (arrival spaces.IdList).1
      (fun space _ => getSpaceInstances_some p atkLabel seLabel commonService space
        (hbound space))
    refine ⟨collect outcomes, ?_⟩
    unfold GetAllInstances getSpaceList
    rw [hs]
    dsimp only
    rw [hm]

/-- Witness of C5: on a platform whose space listing fails the call returns
that error, a nil result and asks for no summary; on the sample platform, where
one of the two summaries and the whole catalog fail, it returns a result. -/
theorem GetAllInstances_error_iff_witness :
    GetAllInstances ⟨sampleHelper, downController⟩ arrivalInOrder "atk" "se" "" "org" =
      some ⟨none, some "spaces unavailable", []⟩ ∧
    ∃ a, GetAllInstances ⟨sampleHelper, sampleController⟩ arrivalReversed "atk" "se" "" "org" =
      some ⟨some a, none,
        (arrivalReversed ({ IdList := ["s1", "s2"] } : Spaces).IdList).1⟩ :=
  ⟨(GetAllInstances_error_iff ⟨sampleHelper, downController⟩ arrivalInOrder
      "atk" "se" "" "org").1 "spaces unavailable" rfl,
   (GetAllInstances_error_iff ⟨sampleHelper, sampleController⟩ arrivalReversed
      "atk" "se" "" "org").2.2.2 { IdList := ["s1", "s2"] } rfl
      (fun space summary hs => by
        have hsum : summary = sampleSummary := by
          simp only [sampleController] at hs
          split at hs
          · exact (Except.ok.inj hs).symm
          · cases hs
        subst hsum
        decide)⟩

/-! ## Ordering -/

theorem Less_append (pre post : List AtkInstance) (x y : AtkInstance) :
    ByName.Less (pre ++ y :: x :: post) (pre.length + 1) pre.length =
      decide (x.Name < y.Name) := by
  unfold ByName.Less
  rw [List.getElem?_append_right (by omega), List.getElem?_append_right (by omega)]
  simp

theorem Swap_append (pre post : List AtkInstance) (x y : AtkInstance) :
    ByName.Swap (pre ++ y :: x :: post) (pre.length + 1) pre.length =
      pre ++ x :: y :: post := by
  unfold ByName.Swap
  rw [List.getElem?_append_right (by omega), List.getElem?_append_right (by omega)]
  simp [List.set_append]

theorem insertionInner_append (r post : List AtkInstance) (x : AtkInstance) :
    insertionInner (r.reverse ++ x :: post) 0 r.length =
      (insertRev x r).reverse ++ post := by
  induction r generalizing post with
  | nil => simp [insertionInner, insertRev]
  | cons y r ih =>
    have hlen : r.length = r.reverse.length := by simp
    have hdata : (y :: r).reverse ++ x :: post = r.reverse ++ y :: x :: post := by simp
    rw [hdata, List.length_cons]
    unfold insertionInner
    have hl := Less_append r.reverse post x y
    have hs := Swap_append r.reverse post x y
    rw [← hlen] at hl hs
    rw [hl, hs]
    by_cases hxy : x.Name < y.Name
    · simp only [insertRev, if_pos hxy]
      simp [hxy, ih]
    · simp only [insertRev, if_neg hxy]
      simp [hxy]

theorem insertRev_perm (x : AtkInstance) (r : List AtkInstance) :
    (insertRev x r).Perm (x :: r) := by
  induction r with
  | nil => exact List.Perm.refl _
  | cons y r ih =>
    unfold insertRev
    split
    · exact (List.Perm.cons y ih).trans (List.Perm.swap x y r)
    · exact List.Perm.refl _

theorem insertRev_length (x : AtkInstance) (r : List AtkInstance) :
    (insertRev x r).length = r.length + 1 := by
  simpa using (insertRev_perm x r).length_eq

theorem insertRev_sorted (x : AtkInstance) (r : List AtkInstance)
    (h : r.Pairwise (fun a b => b.Name ≤ a.Name)) :
    (insertRev x r).Pairwise (fun a b => b.Name ≤ a.Name) := by
  induction r with
  | nil => simp [insertRev]
  | cons y r ih =>
    rw [List.pairwise_cons] at h
    unfold insertRev
    split
    · rename_i hxy
      rw [List.pairwise_cons]
      refine ⟨?_, ih h.2⟩
      intro b hb
      rcases List.mem_cons.1 ((insertRev_perm x r).mem_iff.1 hb) with hbx | hbr
      · rw [hbx]; exact le_of_lt hxy
      · exact h.1 b hbr
    · rename_i hxy
      have hyx : y.Name ≤ x.Name := not_lt.1 hxy
      rw [List.pairwise_cons]
      refine ⟨?_, List.pairwise_cons.2 h⟩
      intro b hb
      rcases List.mem_cons.1 hb with hby | hbr
      · rw [hby]; exact hyx
      · exact le_trans (h.1 b hbr) hyx

theorem insertion_outer (post pre : List AtkInstance)
    (hpre : pre.Pairwise (fun a b => a.Name ≤ b.Name)) :
    ((List.range' pre.length post.length).foldl (fun d i => insertionInner d 0 i)
        (pre ++ post)).Perm (pre ++ post) ∧
    ((List.range' pre.length post.length).foldl (fun d i => insertionInner d 0 i)
        (pre ++ post)).Pairwise (fun a b => a.Name ≤ b.Name) := by
  induction post generalizing pre with
  | nil => simpa using hpre
  | cons x post ih =>
    have hstep : insertionInner (pre ++ x :: post) 0 pre.length =
        (insertRev x pre.reverse).reverse ++ post := by
      have := insertionInner_append pre.reverse post x
      simpa using this
    have hlen : ((insertRev x pre.reverse).reverse).length = pre.length + 1 := by
      simp [insertRev_length]
    have hsorted : ((insertRev x pre.reverse).reverse).Pairwise
        (fun a b => a.Name ≤ b.Name) := by
      rw [List.pairwise_reverse]
      apply insertRev_sorted
      rw [List.pairwise_reverse]
      exact hpre
    have hperm : ((insertRev x pre.reverse).reverse ++ post).Perm (pre ++ x :: post) := by
      refine List.Perm.trans ?_ List.perm_middle.symm
      have hp : ((insertRev x pre.reverse).reverse).Perm (x :: pre) :=
        (List.reverse_perm _).trans
          ((insertRev_perm x pre.reverse).trans (List.Perm.cons x (List.reverse_perm pre)))
      exact List.Perm.append_right post hp
    rw [List.length_cons, List.range'_succ, List.foldl_cons, hstep]
    have h := ih _ hsorted
    rw [hlen] at h
    exact ⟨h.1.trans hperm, h.2⟩

theorem sortSort_perm_sorted (data : List AtkInstance) :
    (sortSort data).Perm data ∧ (sortSort data).Pairwise (fun a b => a.Name ≤ b.Name) := by
  cases data with
  | nil => simp [sortSort, insertionSort, ByName.Len]
  | cons a t =>
    have h := insertion_outer t [a] (by simp)
    simpa [sortSort, insertionSort, ByName.Len] using h

theorem map_Name_eq_of_perm_sorted (s1 s2 : List AtkInstance) (h : s1.Perm s2)
    (h1 : s1.Pairwise (fun a b => a.Name ≤ b.Name))
    (h2 : s2.Pairwise (fun a b => a.Name ≤ b.Name)) :
    s1.map AtkInstance.Name = s2.map AtkInstance.Name :=
  List.eq_of_perm_of_sorted (r := (· ≤ ·)) (h.map AtkInstance.Name)
    (List.pairwise_map.2 h1) (List.pairwise_map.2 h2)

theorem eq_of_perm_of_map_Name_eq (s1 s2 : List AtkInstance) (h : s1.Perm s2)
    (hmap : s1.map AtkInstance.Name = s2.map AtkInstance.Name)
    (hnd : (s1.map AtkInstance.Name).Nodup) : s1 = s2 := by
  induction s1 generalizing s2 with
  | nil => exact (List.Perm.nil_eq h)
  | cons a t ih =>
    cases s2 with
    | nil => exact absurd h.length_eq (by simp)
    | cons b u =>
      simp only [List.map_cons, List.cons.injEq] at hmap
      have hb : b ∈ a :: t := h.mem_iff.2 (List.mem_cons_self _ _)
      have hab : a = b :=
        List.inj_on_of_nodup_map hnd (List.mem_cons_self _ _) hb hmap.1
      subst hab
      rw [List.map_cons, List.nodup_cons] at hnd
      rw [ih u h.cons_inv hmap.2 hnd.2]

/-- C9: after `Sort()` the instances are a permutation of the instances before
the call and stand in ascending order of `Name` (of two positions, the later
one never holds a name less than the earlier one), and both plan ids are
unchanged; the names `b-app`, `a-app`, `c-app` come out as `a-app`, `b-app`,
`c-app`. -/
theorem Sort_sorted_perm (a : AtkInstances) :
    a.Sort.Instances.Perm a.Instances ∧
    a.Sort.Instances.Pairwise (fun x y => ¬ y.Name < x.Name) ∧
    a.Sort.ServicePlanGuid = a.ServicePlanGuid ∧
    a.Sort.SeServicePlanGuid = a.SeServicePlanGuid ∧
    (AtkInstances.Sort
        ⟨[AtkInstance.mk "b-app" "" "" "" "" none, AtkInstance.mk "a-app" "" "" "" "" none,
          AtkInstance.mk "c-app" "" "" "" "" none], "", ""⟩).Instances.map AtkInstance.Name =
      ["a-app", "b-app", "c-app"] := by
  refine ⟨(sortSort_perm_sorted a.Instances).1, ?_, rfl, rfl, ?_⟩
  · exact (sortSort_perm_sorted a.Instances).2.imp (fun h => not_lt.2 h)
  · have hs := sortSort_perm_sorted
      [AtkInstance.mk "b-app" "" "" "" "" none, AtkInstance.mk "a-app" "" "" "" "" none,
        AtkInstance.mk "c-app" "" "" "" "" none]
    have hp : (List.map AtkInstance.Name (sortSort
        [AtkInstance.mk "b-app" "" "" "" "" none, AtkInstance.mk "a-app" "" "" "" "" none,
          AtkInstance.mk "c-app" "" "" "" "" none])).Perm ["a-app", "b-app", "c-app"] :=
      (hs.1.map AtkInstance.Name).trans (List.Perm.swap _ _ _)
    have hab : ("a-app" : String) ≤ "b-app" := by
      rw [← not_lt, String.lt_iff_toList_lt]; decide
    have hbc : ("b-app" : String) ≤ "c-app" := by
      rw [← not_lt, String.lt_iff_toList_lt]; decide
    refine List.eq_of_perm_of_sorted (r := (· ≤ ·)) hp (List.pairwise_map.2 hs.2) ?_
    have hac : ("a-app" : String) ≤ "c-app" := le_trans hab hbc
    refine List.Pairwise.cons ?_ (List.Pairwise.cons ?_ (List.pairwise_singleton _ _))
    · intro b hb
      rcases List.mem_cons.1 hb with h1 | h1
      · rw [h1]; exact hab
      · rw [List.mem_singleton.1 h1]; exact hac
    · intro b hb
      rw [List.mem_singleton.1 hb]; exact hbc

/-- C10 (as stated, refuted): two instances with the same name `x` and
different urls, merged in the two possible orders, are sequences that are
permutations of one another, and `Sort()` leaves each in its own order: the
two sorted sequences differ. -/
theorem Sort_merge_order_counterexample :
    List.Perm
      [AtkInstance.mk "x" "u1" "" "" "" none, AtkInstance.mk "x" "u2" "" "" "" none]
      [AtkInstance.mk "x" "u2" "" "" "" none, AtkInstance.mk "x" "u1" "" "" "" none] ∧
    (AtkInstances.Sort
        ⟨[AtkInstance.mk "x" "u1" "" "" "" none, AtkInstance.mk "x" "u2" "" "" "" none],
          "", ""⟩).Instances =
      [AtkInstance.mk "x" "u1" "" "" "" none, AtkInstance.mk "x" "u2" "" "" "" none] ∧
    (AtkInstances.Sort
        ⟨[AtkInstance.mk "x" "u2" "" "" "" none, AtkInstance.mk "x" "u1" "" "" "" none],
          "", ""⟩).Instances =
      [AtkInstance.mk "x" "u2" "" "" "" none, AtkInstance.mk "x" "u1" "" "" "" none] ∧
    (AtkInstances.Sort
        ⟨[AtkInstance.mk "x" "u1" "" "" "" none, AtkInstance.mk "x" "u2" "" "" "" none],
          "", ""⟩).Instances ≠
      (AtkInstances.Sort
        ⟨[AtkInstance.mk "x" "u2" "" "" "" none, AtkInstance.mk "x" "u1" "" "" "" none],
          "", ""⟩).Instances := by
  have h1 : (AtkInstances.Sort
        ⟨[AtkInstance.mk "x" "u1" "" "" "" none, AtkInstance.mk "x" "u2" "" "" "" none],
          "", ""⟩).Instances =
      [AtkInstance.mk "x" "u1" "" "" "" none, AtkInstance.mk "x" "u2" "" "" "" none] := by
    simp [AtkInstances.Sort, sortSort, insertionSort, ByName.Len, List.range', insertionInner,
      ByName.Less, AtkInstance.Name]
  have h2 : (AtkInstances.Sort
        ⟨[AtkInstance.mk "x" "u2" "" "" "" none, AtkInstance.mk "x" "u1" "" "" "" none],
          "", ""⟩).Instances =
      [AtkInstance.mk "x" "u2" "" "" "" none, AtkInstance.mk "x" "u1" "" "" "" none] := by
    simp [AtkInstances.Sort, sortSort, insertionSort, ByName.Len, List.range', insertionInner,
      ByName.Less, AtkInstance.Name]
  refine ⟨List.Perm.swap _ _ _, h1, h2, ?_⟩
  rw [h1, h2]
  simp

/-- C10 (amended): for two instance sequences that are permutations of one
another, `Sort()` produces the same sequence of names; and it produces the same
sequence of instances when no two instances share a name. -/
theorem Sort_perm_invariant (a b : AtkInstances) (h : a.Instances.Perm b.Instances) :
    a.Sort.Instances.map AtkInstance.Name = b.Sort.Instances.map AtkInstance.Name ∧
    ((a.Instances.map AtkInstance.Name).Nodup → a.Sort.Instances = b.Sort.Instances) := by
  have ha := sortSort_perm_sorted a.Instances
  have hb := sortSort_perm_sorted b.Instances
  have hperm : (sortSort a.Instances).Perm (sortSort b.Instances) :=
    ha.1.trans (h.trans hb.1.symm)
  have hnames := map_Name_eq_of_perm_sorted _ _ hperm ha.2 hb.2
  refine ⟨hnames, fun hnd => ?_⟩
  exact eq_of_perm_of_map_Name_eq _ _ hperm hnames
    (((ha.1.map AtkInstance.Name).nodup_iff).2 hnd)

/-- Witness of C10 (amended): the instances named `b-app`, `a-app`, `c-app`
merged in two orders sort to the same sequence. -/
theorem Sort_perm_invariant_witness :
    (AtkInstances.Sort
        ⟨[AtkInstance.mk "b-app" "" "" "" "" none, AtkInstance.mk "a-app" "" "" "" "" none,
          AtkInstance.mk "c-app" "" "" "" "" none], "", ""⟩).Instances =
      (AtkInstances.Sort
        ⟨[AtkInstance.mk "a-app" "" "" "" "" none, AtkInstance.mk "b-app" "" "" "" "" none,
          AtkInstance.mk "c-app" "" "" "" "" none], "p", "s"⟩).Instances :=
  (Sort_perm_invariant
    ⟨[AtkInstance.mk "b-app" "" "" "" "" none, AtkInstance.mk "a-app" "" "" "" "" none,
      AtkInstance.mk "c-app" "" "" "" "" none], "", ""⟩
    ⟨[AtkInstance.mk "a-app" "" "" "" "" none, AtkInstance.mk "b-app" "" "" "" "" none,
      AtkInstance.mk "c-app" "" "" "" "" none], "p", "s"⟩
    (List.Perm.swap _ _ _)).2 (by decide)

/-! ## Name derivation -/

theorem isPrefixOf_hyphen_false (T : List Char) (hT : '-' ∉ T) :
    ['-'].isPrefixOf T = false := by
  cases T with
  | nil => rfl
  | cons c T =>
    have hne : ¬ ('-' = c) := fun h => hT (h ▸ List.mem_cons_self _ _)
    simp [List.isPrefixOf, hne]

theorem lastIndexFrom_hyphen (U S : List Char) (hS : '-' ∉ S) (k : Nat) :
    lastIndexFrom (U ++ '-' :: S) ['-'] (U.length + k) = (U.length : Int) := by
  induction k with
  | zero =>
    cases U with
    | nil => simp [lastIndexFrom, List.isPrefixOf]
    | cons c U =>
      have hd : List.drop (U.length + 1) (c :: (U ++ '-' :: S)) = '-' :: S := by
        simp
      simp only [List.length_cons, Nat.add_zero, lastIndexFrom, List.cons_append]
      rw [hd]
      simp [List.isPrefixOf]
  | succ k ih =>
    have hd : List.drop (U.length + k + 1) (U ++ '-' :: S) = S.drop k := by
      have h1 : U.length + k + 1 = U.length + (k + 1) := rfl
      rw [h1, List.drop_append, List.drop_succ_cons]
    have hfalse : ['-'].isPrefixOf (S.drop k) = false :=
      isPrefixOf_hyphen_false _ (fun h => hS (List.mem_of_mem_drop h))
    show lastIndexFrom (U ++ '-' :: S) ['-'] (U.length + k + 1) = _
    rw [lastIndexFrom, hd, hfalse]
    simpa using ih

theorem LastIndex_hyphen (u s : String) (hs : '-' ∉ s.data) :
    LastIndex (u ++ "-" ++ s) "-" = (u.length : Int) := by
  unfold LastIndex
  have hdata : (u ++ "-" ++ s).data = u.data ++ '-' :: s.data := by
    simp [String.data_append]
  have hlen : (u.data ++ '-' :: s.data).length = u.data.length + (s.data.length + 1) := by
    simp
  rw [hdata, hlen]
  exact lastIndexFrom_hyphen u.data s.data hs _

/-- C12: for every label and every identifier `u + "-" + s` in which `s` has no
hyphen, `UuidToAppName` returns `label + "-" + u`: the identifier is cut at its
last hyphen. `UuidToAppName("1234-5678-abcd", "atk")` is `"atk-1234-5678"`. -/
theorem UuidToAppName_cuts_last_hyphen (label u s : String) (hs : '-' ∉ s.data) :
    UuidToAppName (u ++ "-" ++ s) label = some (label ++ "-" ++ u) ∧
    UuidToAppName "1234-5678-abcd" "atk" = some "atk-1234-5678" := by
  refine ⟨?_, by decide⟩
  unfold UuidToAppName
  simp only [LastIndex_hyphen u s hs]
  have hle : (0 : Int) ≤ (u.length : Int) ∧ (u.length : Int) ≤ ((u ++ "-" ++ s).length : Int) := by
    refine ⟨Int.ofNat_nonneg _, ?_⟩
    simp [String.length_append]
    omega
  have htake : (⟨List.take u.length (u ++ "-" ++ s).data⟩ : String) = u := by
    have hdata : (u ++ "-" ++ s).data = u.data ++ '-' :: s.data := by
      simp [String.data_append]
    rw [hdata]
    show (⟨List.take u.data.length (u.data ++ '-' :: s.data)⟩ : String) = u
    rw [List.take_left]
  simp only [sliceTo, if_pos hle, Int.toNat_ofNat, htake, Option.map_some']

/-- Witness of C12: the identifier `1234-5678` + `-` + `abcd` and the label
`atk`. -/
theorem UuidToAppName_cuts_last_hyphen_witness :
    UuidToAppName ("1234-5678" ++ "-" ++ "abcd") "atk" = some ("atk" ++ "-" ++ "1234-5678") :=
  (UuidToAppName_cuts_last_hyphen "atk" "1234-5678" "abcd" (by decide)).1

/-- C13 (the code at the failing inputs): for an identifier without a hyphen,
also the empty one, `strings.LastIndex` answers `-1` and the slice
`uuid[:idx]` panics: `UuidToAppName` returns no string. -/
theorem UuidToAppName_panics_without_hyphen :
    LastIndex "abcd" "-" = -1 ∧
    UuidToAppName "abcd" "atk" = none ∧
    LastIndex "" "-" = -1 ∧
    UuidToAppName "" "atk" = none := by
  decide

/-! ## The aggregated list -/

/-- C11 (as stated, refuted): two spaces that each contribute the same single
instance are two fragments free of duplicates, and the merged and sorted list
holds that instance twice. -/
theorem merged_sorted_duplicates_counterexample :
    (∀ f ∈ [(⟨[AtkInstance.mk "a-app" "u" "g" "k" "STARTED" none], "", ""⟩ : AtkInstances),
        ⟨[AtkInstance.mk "a-app" "u" "g" "k" "STARTED" none], "", ""⟩], f.Instances.Nodup) ∧
    ¬ (mergeAll [⟨[AtkInstance.mk "a-app" "u" "g" "k" "STARTED" none], "", ""⟩,
        ⟨[AtkInstance.mk "a-app" "u" "g" "k" "STARTED" none], "", ""⟩]).Sort.Instances.Nodup := by
  refine ⟨by simp, ?_⟩
  intro h
  have hp := (sortSort_perm_sorted (mergeAll
    [⟨[AtkInstance.mk "a-app" "u" "g" "k" "STARTED" none], "", ""⟩,
      ⟨[AtkInstance.mk "a-app" "u" "g" "k" "STARTED" none], "", ""⟩]).Instances).1
  have h2 := hp.nodup_iff.1 h
  simp [mergeAll, Append_Instances] at h2

/-- C11 (amended): merging the fragments and sorting removes nothing: the
instances of the result are a permutation of the concatenation of the instance
lists of the fragments, so the result is free of duplicates exactly when that
concatenation is. -/
theorem merged_sorted_keeps_all (l : List AtkInstances) :
    (mergeAll l).Sort.Instances.Perm (l.map AtkInstances.Instances).flatten ∧
    ((mergeAll l).Sort.Instances.Nodup ↔ (l.map AtkInstances.Instances).flatten.Nodup) := by
  have hm : (mergeAll l).Instances = (l.map AtkInstances.Instances).flatten := by
    unfold mergeAll
    rw [foldl_Append_Instances]
    rfl
  have hp : (mergeAll l).Sort.Instances.Perm (l.map AtkInstances.Instances).flatten := by
    have hs : (mergeAll l).Sort.Instances.Perm (mergeAll l).Instances :=
      (sortSort_perm_sorted (mergeAll l).Instances).1
    rw [hm] at hs
    exact hs
  exact ⟨hp, hp.nodup_iff⟩

/-! ## Merging: the pair of plan ids -/

/-- C18: `Append` changes the plan ids as a pair, on the primary slot of the
fragment: when `b.ServicePlanGuid` is non-empty both plan ids of `a` become
those of `b`, whatever they were and also when `b.SeServicePlanGuid` is empty;
when it is empty both stay as they were and `b.SeServicePlanGuid` is ignored.
In both cases the instances become those of `a` followed by those of `b`. -/
theorem Append_pair_keyed_on_primary (a b : AtkInstances) :
    (b.ServicePlanGuid ≠ "" →
      (a.Append b).ServicePlanGuid = b.ServicePlanGuid ∧
      (a.Append b).SeServicePlanGuid = b.SeServicePlanGuid) ∧
    (b.ServicePlanGuid = "" →
      (a.Append b).ServicePlanGuid = a.ServicePlanGuid ∧
      (a.Append b).SeServicePlanGuid = a.SeServicePlanGuid) ∧
    (a.Append b).Instances = a.Instances ++ b.Instances := by
  refine ⟨fun h => ?_, fun h => ?_, Append_Instances a b⟩
  · rw [Append_ServicePlanGuid, Append_SeServicePlanGuid]
    simp [h]
  · rw [Append_ServicePlanGuid, Append_SeServicePlanGuid]
    simp [h]

/-- Witness of C18: onto the set `("x", "y")`, the fragment `("p", "")`
overwrites both plan ids, and the fragment `("", "s")` changes neither. -/
theorem Append_pair_keyed_on_primary_witness :
    (((⟨[], "x", "y"⟩ : AtkInstances).Append ⟨[], "p", ""⟩).ServicePlanGuid = "p" ∧
      ((⟨[], "x", "y"⟩ : AtkInstances).Append ⟨[], "p", ""⟩).SeServicePlanGuid = "") ∧
    (((⟨[], "x", "y"⟩ : AtkInstances).Append ⟨[], "", "s"⟩).ServicePlanGuid = "x" ∧
      ((⟨[], "x", "y"⟩ : AtkInstances).Append ⟨[], "", "s"⟩).SeServicePlanGuid = "y") :=
  ⟨(Append_pair_keyed_on_primary ⟨[], "x", "y"⟩ ⟨[], "p", ""⟩).1 (by decide),
   (Append_pair_keyed_on_primary ⟨[], "x", "y"⟩ ⟨[], "", "s"⟩).2.1 rfl⟩

/-! ## Plan resolution -/

theorem servicePlanId_eq (p : AtkListService) (Name : String) :
    servicePlanId p Name =
      match p.cloudController.Services with
      | .error err => ("", some err)
      | .ok services => plansFrom p Name (selectPlansUrl services.Resources Name) := by
  unfold servicePlanId plansFrom selectPlansUrl
  cases p.cloudController.Services <;> rfl

theorem foldl_select_append (Name : String) (pre post : List ServiceResource)
    (r : ServiceResource) (init : String) (hr : r.Entity.Label = Name)
    (hpost : ∀ x ∈ post, x.Entity.Label ≠ Name) :
    (pre ++ r :: post).foldl
        (fun url x => if x.Entity.Label = Name then x.Entity.ServicePlansUrl else url) init =
      r.Entity.ServicePlansUrl := by
  rw [List.foldl_append, List.foldl_cons, if_pos hr]
  generalize r.Entity.ServicePlansUrl = u
  induction post with
  | nil => rfl
  | cons x post ih =>
    rw [List.foldl_cons, if_neg (hpost x (List.mem_cons_self _ _))]
    exact ih (fun y hy => hpost y (List.mem_cons_of_mem _ hy))

theorem foldl_select_mem (Name : String) (l : List ServiceResource) (init : String) :
    l.foldl (fun url x => if x.Entity.Label = Name then x.Entity.ServicePlansUrl else url)
        init = init ∨
    ∃ r ∈ l, r.Entity.Label = Name ∧
      r.Entity.ServicePlansUrl =
        l.foldl (fun url x => if x.Entity.Label = Name then x.Entity.ServicePlansUrl else url)
          init := by
  induction l generalizing init with
  | nil => exact Or.inl rfl
  | cons x l ih =>
    rw [List.foldl_cons]
    by_cases hx : x.Entity.Label = Name
    · rw [if_pos hx]
      rcases ih x.Entity.ServicePlansUrl with h | ⟨r, hr, hl, hu⟩
      · exact Or.inr ⟨x, List.mem_cons_self _ _, hx, h.symm⟩
      · exact Or.inr ⟨r, List.mem_cons_of_mem _ hr, hl, hu⟩
    · rw [if_neg hx]
      rcases ih init with h | ⟨r, hr, hl, hu⟩
      · exact Or.inl h
      · exact Or.inr ⟨r, List.mem_cons_of_mem _ hr, hl, hu⟩

theorem String_length_eq_zero (s : String) : s.length = 0 ↔ s = "" := by
  constructor
  · intro h
    have hd : s.data = [] := List.length_eq_zero.1 h
    exact String.ext hd
  · intro h
    rw [h]
    rfl

theorem plansFrom_none (p : AtkListService) (Name url id : String)
    (h : plansFrom p Name url = (id, none)) :
    url ≠ "" ∧ ∃ servicePlans first rest,
      p.cloudController.ServicePlans url = .ok servicePlans ∧
      servicePlans.Resources = first :: rest ∧ id = first.Metadata.Id := by
  unfold plansFrom at h
  split at h
  · cases h
  · rename_i hlen
    refine ⟨fun hu => hlen ((String_length_eq_zero url).2 hu), ?_⟩
    cases hsp : p.cloudController.ServicePlans url with
    | error err => rw [hsp] at h; cases h
    | ok servicePlans =>
      rw [hsp] at h
      dsimp only at h
      cases hres : servicePlans.Resources with
      | nil => rw [hres] at h; cases h
      | cons first rest =>
        rw [hres] at h
        exact ⟨servicePlans, first, rest, rfl, hres, (Prod.mk.inj h).1.symm⟩

/-- C14: whenever `servicePlanId` returns a nil error, the id it returns is the
`Metadata.Id` of the first element of the plan list, and that list was fetched
from a non-empty plans url belonging to a catalog entry whose `Label` is the
requested label; the rest of the plan list does not enter the result. -/
theorem servicePlanId_first_plan (p : AtkListService) (Name id : String)
    (h : servicePlanId p Name = (id, none)) :
    ∃ services url servicePlans first rest,
      p.cloudController.Services = .ok services ∧
      (∃ r ∈ services.Resources, r.Entity.Label = Name ∧ r.Entity.ServicePlansUrl = url) ∧
      url ≠ "" ∧
      p.cloudController.ServicePlans url = .ok servicePlans ∧
      servicePlans.Resources = first :: rest ∧
      id = first.Metadata.Id := by
  rw [servicePlanId_eq] at h
  cases hs : p.cloudController.Services with
  | error err => rw [hs] at h; cases h
  | ok services =>
    rw [hs] at h
    dsimp only at h
    obtain ⟨hne, servicePlans, first, rest, hsp, hres, hid⟩ := plansFrom_none p Name _ id h
    refine ⟨services, selectPlansUrl services.Resources Name, servicePlans, first, rest,
      rfl, ?_, hne, hsp, hres, hid⟩
    rcases foldl_select_mem Name services.Resources "" with h0 | hmem
    · exact absurd h0 hne
    · exact hmem

/-- Witness of C14: on the sample catalog the label `atk` resolves to
`plan-1`, the first of the two plans listed. -/
theorem servicePlanId_first_plan_witness :
    ∃ services url servicePlans first rest,
      catalogController.Services = .ok services ∧
      (∃ r ∈ services.Resources, r.Entity.Label = "atk" ∧ r.Entity.ServicePlansUrl = url) ∧
      url ≠ "" ∧
      catalogController.ServicePlans url = .ok servicePlans ∧
      servicePlans.Resources = first :: rest ∧
      "plan-1" = first.Metadata.Id :=
  servicePlanId_first_plan ⟨sampleHelper, catalogController⟩ "atk" "plan-1" (by decide)

/-- C15 (as stated, refuted): in the sample catalog no entry has the label
`missing` and the entry with the label `se` has an empty plans url; for both
labels `servicePlanId` returns the same error message. -/
theorem servicePlanId_messages_counterexample :
    (∀ r ∈ [({ Entity := { Label := "atk", ServicePlansUrl := "/v2/atk/old" } } :
          ServiceResource),
        { Entity := { Label := "se", ServicePlansUrl := "" } },
        { Entity := { Label := "atk", ServicePlansUrl := "/v2/atk/plans" } }],
      r.Entity.Label ≠ "missing") ∧
    servicePlanId ⟨sampleHelper, catalogController⟩ "missing" =
      ("", some "Service plans url is empty") ∧
    servicePlanId ⟨sampleHelper, catalogController⟩ "se" =
      ("", some "Service plans url is empty") ∧
    (servicePlanId ⟨sampleHelper, catalogController⟩ "missing").2 =
      (servicePlanId ⟨sampleHelper, catalogController⟩ "se").2 := by
  decide

/-- C15 (amended): `servicePlanId` reports the two lookup failures with one and
the same message: when the catalog has no entry with the requested label, and
when its entries with that label have an empty plans url, the error returned is
"Service plans url is empty". -/
theorem servicePlanId_same_message (p : AtkListService) (Name : String)
    (services : ServiceList) (hs : p.cloudController.Services = .ok services)
    (h : ∀ r ∈ services.Resources, r.Entity.Label = Name → r.Entity.ServicePlansUrl = "") :
    servicePlanId p Name = ("", some "Service plans url is empty") := by
  rw [servicePlanId_eq, hs]
  dsimp only
  have hsel : selectPlansUrl services.Resources Name = "" := by
    rcases foldl_select_mem Name services.Resources "" with h0 | ⟨r, hr, hl, hu⟩
    · exact h0
    · exact hu.symm.trans (h r hr hl)
  rw [hsel]
  rfl

/-- Witness of C15 (amended): the label `se` of the sample catalog, whose only
entry has an empty plans url. -/
theorem servicePlanId_same_message_witness :
    servicePlanId ⟨sampleHelper, catalogController⟩ "se" =
      ("", some "Service plans url is empty") :=
  servicePlanId_same_message ⟨sampleHelper, catalogController⟩ "se"
    { Resources :=
      [{ Entity := { Label := "atk", ServicePlansUrl := "/v2/atk/old" } },
       { Entity := { Label := "se", ServicePlansUrl := "" } },
       { Entity := { Label := "atk", ServicePlansUrl := "/v2/atk/plans" } }] }
    rfl (by decide)

/-- C19: when several catalog entries have the requested label, the plans url
of the last of them in catalog order is the one used: `servicePlanId` goes on
from that url, and it fails with the empty-url error when that url is empty,
whatever url an earlier entry with the label has. -/
theorem servicePlanId_last_match (p : AtkListService) (Name : String)
    (services : ServiceList) (pre post : List ServiceResource) (r : ServiceResource)
    (hs : p.cloudController.Services = .ok services)
    (hres : services.Resources = pre ++ r :: post)
    (hr : r.Entity.Label = Name)
    (hpost : ∀ x ∈ post, x.Entity.Label ≠ Name) :
    servicePlanId p Name = plansFrom p Name r.Entity.ServicePlansUrl ∧
    (r.Entity.ServicePlansUrl = "" →
      servicePlanId p Name = ("", some "Service plans url is empty")) := by
  have h1 : servicePlanId p Name = plansFrom p Name r.Entity.ServicePlansUrl := by
    rw [servicePlanId_eq, hs]
    dsimp only
    unfold selectPlansUrl
    rw [hres, foldl_select_append Name pre post r "" hr hpost]
  refine ⟨h1, fun hu => ?_⟩
  rw [h1, hu]
  rfl

/-- Witness of C19: a catalog with two entries labelled `atk`, the first with a
usable plans url and the last with an empty one: the resolution fails with the
empty-url error. -/
theorem servicePlanId_last_match_witness :
    servicePlanId ⟨sampleHelper, lastEmptyController⟩ "atk" =
      ("", some "Service plans url is empty") :=
  (servicePlanId_last_match ⟨sampleHelper, lastEmptyController⟩ "atk"
    { Resources :=
      [{ Entity := { Label := "atk", ServicePlansUrl := "/v2/atk/plans" } },
       { Entity := { Label := "atk", ServicePlansUrl := "" } }] }
    [{ Entity := { Label := "atk", ServicePlansUrl := "/v2/atk/plans" } }] []
    { Entity := { Label := "atk", ServicePlansUrl := "" } }
    rfl rfl rfl (by simp)).2 rfl

theorem plansFrom_error_empty (p : AtkListService) (Name url : String)
    (h : (plansFrom p Name url).2 ≠ none) : (plansFrom p Name url).1 = "" := by
  unfold plansFrom at h ⊢
  split
  · rfl
  · rename_i hlen
    rw [if_neg hlen] at h
    cases hsp : p.cloudController.ServicePlans url with
    | error err => rfl
    | ok servicePlans =>
      rw [hsp] at h
      dsimp only at h ⊢
      cases hres : servicePlans.Resources with
      | nil => rfl
      | cons first rest =>
        rw [hres] at h
        exact absurd rfl h

theorem servicePlanId_error_empty (p : AtkListService) (Name : String)
    (h : (servicePlanId p Name).2 ≠ none) : (servicePlanId p Name).1 = "" := by
  rw [servicePlanId_eq] at h ⊢
  cases hs : p.cloudController.Services with
  | error err => rfl
  | ok services =>
    rw [hs] at h
    exact plansFrom_error_empty p Name _ h

/-- C17: on every path on which `servicePlanId` returns an error the id it
returns is the empty string; and whenever the summary fetch succeeds (and the
join stays within its buffer) `getSpaceInstances` sends a fragment that holds
the joined instances and, in each plan-id slot, what `servicePlanId` returned
for that label: the empty string where the resolution failed, the resolved id
where it did not. -/
theorem getSpaceInstances_plan_failure (p : AtkListService)
    (atkLabel seLabel serviceSearchString : String) :
    (∀ Name, (servicePlanId p Name).2 ≠ none → (servicePlanId p Name).1 = "") ∧
    (∀ space summary atkInstanceList,
      p.cloudController.SpaceSummary space = .ok summary →
      getInstancesFromSpaceSummary p atkLabel seLabel serviceSearchString summary =
        some atkInstanceList →
      getSpaceInstances p atkLabel seLabel serviceSearchString space =
        some (.frag ⟨atkInstanceList, (servicePlanId p atkLabel).1,
          (servicePlanId p seLabel).1⟩)) := by
  refine ⟨fun Name h => servicePlanId_error_empty p Name h, ?_⟩
  intro space summary atkInstanceList hs hj
  unfold getSpaceInstances
  rw [hs]
  dsimp only
  rw [hj]

/-- Witness of C17: on the sample catalog the label `atk` resolves to `plan-1`
and the label `se` does not resolve; the task of the space `s1` sends the two
joined instances with the plan ids `plan-1` and the empty string. -/
theorem getSpaceInstances_plan_failure_witness :
    (servicePlanId ⟨sampleHelper, catalogController⟩ "se").1 = "" ∧
    getSpaceInstances ⟨sampleHelper, catalogController⟩ "atk" "se" "" "s1" =
      some (.frag ⟨[AtkInstance.mk "A" "a.example" "ga" "k1" "STARTED"
              (some (AtkInstance.mk "C" "c.example" "gc" "k1" "STARTED" none)),
            AtkInstance.mk "B" "b.example" "gb" "k2" "STARTED"
              (some (AtkInstance.mk "" "" "" "" "" none))],
          (servicePlanId ⟨sampleHelper, catalogController⟩ "atk").1,
          (servicePlanId ⟨sampleHelper, catalogController⟩ "se").1⟩) ∧
    (servicePlanId ⟨sampleHelper, catalogController⟩ "atk").1 = "plan-1" :=
  ⟨(getSpaceInstances_plan_failure ⟨sampleHelper, catalogController⟩ "atk" "se" "").1 "se"
      (by decide),
   (getSpaceInstances_plan_failure ⟨sampleHelper, catalogController⟩ "atk" "se" "").2
      "s1" sampleSummary _ rfl rfl,
   by decide⟩

/-! ## The tasks and the collector over the two channels -/



theorem getSpaceInstancesSends_eq (p : AtkListService)
    (atkLabel seLabel serviceSearchString space : String) :
    getSpaceInstancesSends p atkLabel seLabel serviceSearchString space =
      (getSpaceInstances p atkLabel seLabel serviceSearchString space).map (fun o => [o]) := by
  unfold getSpaceInstancesSends getSpaceInstances
  cases p.cloudController.SpaceSummary space with
  | error err => rfl
  | ok summary =>
    dsimp only
    cases getInstancesFromSpaceSummary p atkLabel seLabel serviceSearchString summary <;> rfl

theorem getSpaceInstances_channel (p : AtkListService)
    (atkLabel seLabel serviceSearchString space : String) (o : Outcome)
    (h : getSpaceInstances p atkLabel seLabel serviceSearchString space = some o) :
    (∃ e, o = .err e) ↔ ∃ e, p.cloudController.SpaceSummary space = .error e := by
  unfold getSpaceInstances at h
  cases hs : p.cloudController.SpaceSummary space with
  | error err =>
    rw [hs] at h
    cases h
    exact ⟨fun _ => ⟨err, rfl⟩, fun _ => ⟨err, rfl⟩⟩
  | ok summary =>
    rw [hs] at h
    dsimp only at h
    cases hj : getInstancesFromSpaceSummary p atkLabel seLabel serviceSearchString summary with
    | none => rw [hj] at h; cases h
    | some l =>
      rw [hj] at h
      cases h
      constructor
      · rintro ⟨e, he⟩; cases he
      · rintro ⟨e, he⟩; cases he

theorem getSpaceInstancesSends_one (p : AtkListService)
    (atkLabel seLabel serviceSearchString space : String) (sends : List Outcome)
    (h : getSpaceInstancesSends p atkLabel seLabel serviceSearchString space = some sends) :
    ∃ o, sends = [o] ∧
      getSpaceInstances p atkLabel seLabel serviceSearchString space = some o := by
  rw [getSpaceInstancesSends_eq] at h
  cases ho : getSpaceInstances p atkLabel seLabel serviceSearchString space with
  | none => rw [ho] at h; cases h
  | some o =>
    rw [ho] at h
    exact ⟨o, (Option.some.inj h).symm, rfl⟩

theorem pendingSpaces_cons (t : Task) (tasks : List Task) :
    pendingSpaces (t :: tasks) = t.sends.map (fun _ => t.space) ++ pendingSpaces tasks := by
  simp [pendingSpaces]

theorem pendingSpaces_append (A B : List Task) :
    pendingSpaces (A ++ B) = pendingSpaces A ++ pendingSpaces B := by
  simp [pendingSpaces]

theorem launch_spec (p : AtkListService) (atkLabel seLabel commonService : String)
    (l : List String) (tasks : List Task)
    (h : launch p atkLabel seLabel commonService l = some tasks) :
    pendingSpaces tasks = l ∧
    ∀ t ∈ tasks, ∀ o ∈ t.sends,
      getSpaceInstances p atkLabel seLabel commonService t.space = some o := by
  induction l generalizing tasks with
  | nil =>
    simp only [launch, Option.some.injEq] at h
    subst h
    exact ⟨rfl, fun t ht => absurd ht (List.not_mem_nil _)⟩
  | cons x rest ih =>
    unfold launch at h
    cases hx : getSpaceInstancesSends p atkLabel seLabel commonService x with
    | none => rw [hx] at h; cases h
    | some sends =>
      rw [hx] at h
      dsimp only at h
      cases hr : launch p atkLabel seLabel commonService rest with
      | none => rw [hr] at h; cases h
      | some ts =>
        rw [hr] at h
        dsimp only at h
        cases h
        obtain ⟨o, hso, ho⟩ := getSpaceInstancesSends_one p _ _ _ x sends hx
        obtain ⟨h1, h2⟩ := ih ts hr
        subst hso
        refine ⟨by simp [pendingSpaces_cons, h1], ?_⟩
        intro t ht o1 ho1
        rcases List.mem_cons.1 ht with rfl | ht1
        · rw [List.mem_singleton.1 ho1]; exact ho
        · exact h2 t ht1 o1 ho1

theorem launch_some_of_forall (p : AtkListService) (atkLabel seLabel commonService : String)
    (l : List String)
    (h : ∀ x ∈ l, ∃ o, getSpaceInstances p atkLabel seLabel commonService x = some o) :
    ∃ tasks, launch p atkLabel seLabel commonService l = some tasks := by
  induction l with
  | nil => exact ⟨[], rfl⟩
  | cons x rest ih =>
    obtain ⟨o, ho⟩ := h x (List.mem_cons_self _ _)
    obtain ⟨ts, hts⟩ := ih (fun z hz => h z (List.mem_cons_of_mem _ hz))
    refine ⟨⟨x, [o]⟩ :: ts, ?_⟩
    simp [launch, getSpaceInstancesSends_eq, ho, hts]

theorem runTasks_some_mem (task : String → Option Outcome) (l : List String)
    (outcomes : List Outcome) (h : runTasks task l = some outcomes) :
    ∀ x ∈ l, ∃ o, task x = some o := by
  induction l generalizing outcomes with
  | nil => intro x hx; exact absurd hx (List.not_mem_nil _)
  | cons y t ih =>
    unfold runTasks at h
    cases hy : task y with
    | none => rw [hy] at h; cases h
    | some o =>
      rw [hy] at h
      dsimp only at h
      cases ht : runTasks task t with
      | none => rw [ht] at h; cases h
      | some os =>
        intro x hx
        rcases List.mem_cons.1 hx with rfl | hx1
        · exact ⟨o, hy⟩
        · exact ih os ht x hx1

theorem runTasks_append_one (task : String → Option Outcome) (l : List String)
    (outcomes : List Outcome) (x : String) (o : Outcome)
    (h : runTasks task l = some outcomes) (hx : task x = some o) :
    runTasks task (l ++ [x]) = some (outcomes ++ [o]) := by
  induction l generalizing outcomes with
  | nil =>
    simp only [runTasks, Option.some.injEq] at h
    subst h
    simp [runTasks, hx]
  | cons y t ih =>
    unfold runTasks at h
    cases hy : task y with
    | none => rw [hy] at h; cases h
    | some oy =>
      rw [hy] at h
      dsimp only at h
      cases ht : runTasks task t with
      | none => rw [ht] at h; cases h
      | some os =>
        rw [ht] at h
        dsimp only at h
        cases h
        simp [runTasks, hy, ih os ht]

theorem rendezvous_at (s : CallState) (A B : List Task) (space : String) (o : Outcome)
    (rest : List Outcome) (ht : s.tasks = A ++ ⟨space, o :: rest⟩ :: B)
    (hrem : s.remaining ≠ 0) :
    rendezvous s A.length =
      some ⟨A ++ ⟨space, rest⟩ :: B, s.remaining - 1, collectStep s.atkInstances o,
        s.arrived ++ [space]⟩ := by
  unfold rendezvous
  rw [if_neg hrem, ht]
  have hget : (A ++ (⟨space, o :: rest⟩ : Task) :: B)[A.length]? =
      some ⟨space, o :: rest⟩ := by
    rw [List.getElem?_append_right (Nat.le_refl _)]
    simp
  rw [hget]
  simp

theorem rendezvous_decompose (s s1 : CallState) (i : Nat) (h : rendezvous s i = some s1) :
    ∃ A B space o rest, s.tasks = A ++ ⟨space, o :: rest⟩ :: B ∧ s.remaining ≠ 0 ∧
      s1 = ⟨A ++ ⟨space, rest⟩ :: B, s.remaining - 1, collectStep s.atkInstances o,
        s.arrived ++ [space]⟩ := by
  unfold rendezvous at h
  split at h
  · cases h
  · rename_i hrem
    cases hp : s.tasks[i]? with
    | none => rw [hp] at h; cases h
    | some t =>
      obtain ⟨space, sends⟩ := t
      cases sends with
      | nil => rw [hp] at h; cases h
      | cons o rest =>
        obtain ⟨hi, hti⟩ := List.getElem?_eq_some_iff.1 hp
        have hdec : s.tasks = s.tasks.take i ++ ⟨space, o :: rest⟩ :: s.tasks.drop (i + 1) := by
          rw [← hti, ← List.drop_eq_getElem_cons hi, List.take_append_drop]
        have hlen : (s.tasks.take i).length = i := by
          rw [List.length_take]; omega
        have h2 := rendezvous_at s _ _ space o rest hdec hrem
        rw [hlen] at h2
        have h3 : rendezvous s i = some s1 := by
          unfold rendezvous
          rw [if_neg hrem]
          exact h
        rw [h2] at h3
        exact ⟨_, _, space, o, rest, hdec, hrem, (Option.some.inj h3).symm⟩

theorem CallInv_step (p : AtkListService) (atkLabel seLabel commonService : String)
    (spaceList : List String) (s s1 : CallState) (i : Nat)
    (hinv : CallInv p atkLabel seLabel commonService spaceList s)
    (h : rendezvous s i = some s1) :
    CallInv p atkLabel seLabel commonService spaceList s1 ∧ s1.remaining + 1 = s.remaining := by
  obtain ⟨A, B, space, o, rest, ht, hrem, hs1⟩ := rendezvous_decompose s s1 i h
  subst hs1
  have hpend : pendingSpaces s.tasks =
      pendingSpaces A ++ space :: (rest.map (fun _ => space) ++ pendingSpaces B) := by
    rw [ht, pendingSpaces_append, pendingSpaces_cons]
    simp
  have hpend1 : pendingSpaces (A ++ (⟨space, rest⟩ : Task) :: B) =
      pendingSpaces A ++ (rest.map (fun _ => space) ++ pendingSpaces B) := by
    rw [pendingSpaces_append, pendingSpaces_cons]
  have ho : getSpaceInstances p atkLabel seLabel commonService space = some o := by
    have hmem : (⟨space, o :: rest⟩ : Task) ∈ s.tasks := by
      rw [ht]; simp
    exact hinv.sends_ok _ hmem o (List.mem_cons_self _ _)
  refine ⟨⟨?_, ?_, ?_, ?_⟩, ?_⟩
  · intro t htm o1 ho1
    rcases List.mem_append.1 htm with hA | hB
    · exact hinv.sends_ok t (by rw [ht]; exact List.mem_append_left _ hA) o1 ho1
    · rcases List.mem_cons.1 hB with rfl | hB1
      · have hmem : (⟨space, o :: rest⟩ : Task) ∈ s.tasks := by
          rw [ht]; simp
        exact hinv.sends_ok _ hmem o1 (List.mem_cons_of_mem _ ho1)
      · exact hinv.sends_ok t
          (by rw [ht]; exact List.mem_append_right _ (List.mem_cons_of_mem _ hB1)) o1 ho1
  · have hp := hinv.perm
    rw [hpend] at hp
    show ((s.arrived ++ [space]) ++ pendingSpaces (A ++ (⟨space, rest⟩ : Task) :: B)).Perm
      spaceList
    rw [hpend1]
    refine List.Perm.trans ?_ hp
    rw [List.append_assoc]
    refine List.Perm.append_left s.arrived ?_
    show (space :: (pendingSpaces A ++ (rest.map (fun _ => space) ++ pendingSpaces B))).Perm _
    exact List.perm_middle.symm
  · show s.remaining - 1 = (pendingSpaces (A ++ (⟨space, rest⟩ : Task) :: B)).length
    have hc := hinv.count
    rw [hpend] at hc
    rw [hpend1]
    simp only [List.length_append, List.length_cons] at hc ⊢
    omega
  · obtain ⟨outcomes, hrun, hacc⟩ := hinv.collected
    refine ⟨outcomes ++ [o], runTasks_append_one _ _ _ _ _ hrun ho, ?_⟩
    show collectStep s.atkInstances o = collect (outcomes ++ [o])
    rw [hacc]
    simp [collect, List.foldl_append]
  · show s.remaining - 1 + 1 = s.remaining
    omega

theorem CallInv_run (p : AtkListService) (atkLabel seLabel commonService : String)
    (spaceList : List String) (schedule : List Nat) (s s1 : CallState)
    (hinv : CallInv p atkLabel seLabel commonService spaceList s)
    (h : runSchedule s schedule = some s1) :
    CallInv p atkLabel seLabel commonService spaceList s1 ∧
      s1.remaining + schedule.length = s.remaining := by
  induction schedule generalizing s with
  | nil =>
    simp only [runSchedule, Option.some.injEq] at h
    subst h
    exact ⟨hinv, rfl⟩
  | cons i rest ih =>
    unfold runSchedule at h
    cases hr : rendezvous s i with
    | none => rw [hr] at h; cases h
    | some s2 =>
      rw [hr] at h
      dsimp only at h
      obtain ⟨h2, h3⟩ := CallInv_step p _ _ _ spaceList s s2 i hinv hr
      obtain ⟨h4, h5⟩ := ih s2 h2 h
      refine ⟨h4, ?_⟩
      simp only [List.length_cons]
      omega

theorem CallInv_start (p : AtkListService) (atkLabel seLabel commonService : String)
    (spaceList : List String) (start : CallState)
    (h : callStart p atkLabel seLabel commonService spaceList = some start) :
    CallInv p atkLabel seLabel commonService spaceList start := by
  unfold callStart at h
  cases hl : launch p atkLabel seLabel commonService spaceList with
  | none => rw [hl] at h; cases h
  | some tasks =>
    rw [hl] at h
    cases h
    obtain ⟨h1, h2⟩ := launch_spec p _ _ _ spaceList tasks hl
    refine ⟨h2, ?_, ?_, ⟨[], rfl, rfl⟩⟩
    · show ([] ++ pendingSpaces tasks).Perm spaceList
      rw [h1]
      exact List.Perm.refl _
    · show spaceList.length = (pendingSpaces tasks).length
      rw [h1]

theorem pending_task (tasks : List Task) (space : String)
    (h : space ∈ pendingSpaces tasks) :
    ∃ A B o rest, tasks = A ++ ⟨space, o :: rest⟩ :: B := by
  unfold pendingSpaces at h
  obtain ⟨q, hq, hsq⟩ := List.mem_flatten.1 h
  obtain ⟨t, ht, rfl⟩ := List.mem_map.1 hq
  obtain ⟨x, hx, hxs⟩ := List.mem_map.1 hsq
  obtain ⟨A, B, hAB⟩ := List.append_of_mem ht
  obtain ⟨tspace, tsends⟩ := t
  cases tsends with
  | nil => exact absurd hx (List.not_mem_nil _)
  | cons o rest =>
    dsimp only at hxs
    subst hxs
    exact ⟨A, B, o, rest, hAB⟩

theorem CallInv_progress (p : AtkListService) (atkLabel seLabel commonService : String)
    (spaceList : List String) (s : CallState)
    (hinv : CallInv p atkLabel seLabel commonService spaceList s) (hrem : s.remaining ≠ 0) :
    ∃ i s1, rendezvous s i = some s1 := by
  have hc := hinv.count
  cases hp : pendingSpaces s.tasks with
  | nil => rw [hp] at hc; exact absurd hc hrem
  | cons space rest =>
    obtain ⟨A, B, o, r, ht⟩ := pending_task s.tasks space (by rw [hp]; exact List.mem_cons_self _ _)
    exact ⟨A.length, _, rendezvous_at s A B space o r ht hrem⟩

theorem CallInv_done (p : AtkListService) (atkLabel seLabel commonService : String)
    (spaceList : List String) (s : CallState)
    (hinv : CallInv p atkLabel seLabel commonService spaceList s) (hrem : s.remaining = 0) :
    (∀ t ∈ s.tasks, t.sends = []) ∧ s.arrived.Perm spaceList := by
  have hc := hinv.count
  rw [hrem] at hc
  have hnil : pendingSpaces s.tasks = [] := List.length_eq_zero.1 hc.symm
  refine ⟨?_, ?_⟩
  · intro t ht
    cases hs : t.sends with
    | nil => rfl
    | cons o rest =>
      have hmem : t.space ∈ pendingSpaces s.tasks := by
        unfold pendingSpaces
        refine List.mem_flatten.2 ⟨_, List.mem_map.2 ⟨t, ht, rfl⟩, ?_⟩
        rw [hs]
        exact List.mem_cons_self _ _
      rw [hnil] at hmem
      exact absurd hmem (List.not_mem_nil _)
  · have hp := hinv.perm
    rw [hnil, List.append_nil] at hp
    exact hp

theorem schedule_exists (p : AtkListService) (atkLabel seLabel commonService : String)
    (spaceList : List String) (L : List String) (s : CallState)
    (hinv : CallInv p atkLabel seLabel commonService spaceList s)
    (hL : L.Perm (pendingSpaces s.tasks)) :
    ∃ schedule s1, runSchedule s schedule = some s1 ∧ schedule.length = L.length ∧
      s1.remaining = 0 ∧ s1.arrived = s.arrived ++ L := by
  induction L generalizing s with
  | nil =>
    have hnil : pendingSpaces s.tasks = [] := (List.Perm.nil_eq hL).symm
    have hc := hinv.count
    rw [hnil] at hc
    exact ⟨[], s, rfl, rfl, hc, by simp⟩
  | cons space L ih =>
    have hmem : space ∈ pendingSpaces s.tasks := hL.mem_iff.1 (List.mem_cons_self _ _)
    obtain ⟨A, B, o, rest, ht⟩ := pending_task s.tasks space hmem
    have hrem : s.remaining ≠ 0 := by
      have hc := hinv.count
      have hl := hL.length_eq
      simp only [List.length_cons] at hl
      omega
    have hstep := rendezvous_at s A B space o rest ht hrem
    obtain ⟨hinv2, _⟩ := CallInv_step p _ _ _ spaceList s _ A.length hinv hstep
    have hL2 : L.Perm (pendingSpaces (A ++ (⟨space, rest⟩ : Task) :: B)) := by
      have hpend : pendingSpaces s.tasks =
          pendingSpaces A ++ space :: (rest.map (fun _ => space) ++ pendingSpaces B) := by
        rw [ht, pendingSpaces_append, pendingSpaces_cons]
        simp
      rw [hpend] at hL
      rw [pendingSpaces_append, pendingSpaces_cons]
      exact (hL.trans List.perm_middle).cons_inv
    obtain ⟨schedule, s1, hrun, hlen, h0, harr⟩ := ih _ hinv2 hL2
    refine ⟨A.length :: schedule, s1, ?_, by simp [hlen], h0, ?_⟩
    · simp only [runSchedule, hstep]
      exact hrun
    · rw [harr]
      simp

theorem GetAllInstances_arrivalAs (p : AtkListService)
    (atkLabel seLabel commonService orgId : String) (spaces : Spaces)
    (arrived : List String) (h : arrived.Perm spaces.IdList) (outcomes : List Outcome)
    (hs : p.cloudController.Spaces orgId = .ok spaces)
    (hrun : runTasks (getSpaceInstances p atkLabel seLabel commonService) arrived =
      some outcomes) :
    GetAllInstances p (arrivalAs spaces.IdList arrived h) atkLabel seLabel commonService orgId =
      some ⟨some (collect outcomes), none, arrived⟩ := by
  have harr : (arrivalAs spaces.IdList arrived h spaces.IdList).1 = arrived := by
    simp [arrivalAs]
  unfold GetAllInstances getSpaceList
  rw [hs]
  dsimp only
  rw [harr, hrun]

/-- C16: a space task that runs to its end makes exactly one send, on the error
channel when the summary fetch failed and on the instance channel otherwise,
and it does run to its end when the join stays within its buffer. The call
starts one task per element of `spaceList` and gives its collecting loop one
iteration per element; in every state it can reach, whatever the order of the
receives, the receives made plus the iterations left are `len(spaceList)`,
while an iteration is left some task is waiting to be received from, and when
the loop has ended no task has a send left and what was collected is what
`GetAllInstances` returns for that order of arrival. Every return of
`GetAllInstances` after a successful listing is the end of such a run of
`len(spaceList)` receives. -/
theorem tasks_collector_rendezvous (p : AtkListService)
    (atkLabel seLabel serviceSearchString : String) :
    (∀ space sends,
      getSpaceInstancesSends p atkLabel seLabel serviceSearchString space = some sends →
      ∃ o, sends = [o] ∧
        ((∃ e, o = .err e) ↔ ∃ e, p.cloudController.SpaceSummary space = .error e)) ∧
    (∀ space,
      (∀ summary, p.cloudController.SpaceSummary space = .ok summary →
        (p.SpaceSummaryHelper atkLabel serviceSearchString summary
          (appsByName summary)).size ≤ summary.Services.length) →
      ∃ sends, getSpaceInstancesSends p atkLabel seLabel serviceSearchString space =
        some sends) ∧
    (∀ spaceList start,
      callStart p atkLabel seLabel serviceSearchString spaceList = some start →
      ∀ schedule s, runSchedule start schedule = some s →
        s.remaining + schedule.length = spaceList.length ∧
        (s.remaining ≠ 0 → ∃ i s1, rendezvous s i = some s1) ∧
        (s.remaining = 0 →
          (∀ t ∈ s.tasks, t.sends = []) ∧
          ∃ h : s.arrived.Perm spaceList,
            ∀ orgId spaces, p.cloudController.Spaces orgId = .ok spaces →
              spaces.IdList = spaceList →
              GetAllInstances p (arrivalAs spaceList s.arrived h) atkLabel seLabel
                  serviceSearchString orgId =
                some ⟨some s.atkInstances, none, s.arrived⟩)) ∧
    (∀ arrival orgId spaces r, p.cloudController.Spaces orgId = .ok spaces →
      GetAllInstances p arrival atkLabel seLabel serviceSearchString orgId = some r →
      ∃ start schedule s,
        callStart p atkLabel seLabel serviceSearchString spaces.IdList = some start ∧
        runSchedule start schedule = some s ∧
        schedule.length = spaces.IdList.length ∧
        s.remaining = 0 ∧
        s.arrived = (arrival spaces.IdList).1 ∧
        r.result = some s.atkInstances) := by
  refine ⟨?_, ?_, ?_, ?_⟩
  · intro space sends h
    obtain ⟨o, hso, ho⟩ := getSpaceInstancesSends_one p _ _ _ space sends h
    exact ⟨o, hso, getSpaceInstances_channel p _ _ _ space o ho⟩
  · intro space hb
    obtain ⟨o, ho⟩ := getSpaceInstances_some p atkLabel seLabel serviceSearchString space hb
    exact ⟨[o], by rw [getSpaceInstancesSends_eq, ho]; rfl⟩
  · intro spaceList start hstart schedule s hrun
    have hinv0 := CallInv_start p _ _ _ spaceList start hstart
    obtain ⟨hinv, hcount⟩ := CallInv_run p _ _ _ spaceList schedule start s hinv0 hrun
    have hstart_rem : start.remaining = spaceList.length := by
      unfold callStart at hstart
      cases hl : launch p atkLabel seLabel serviceSearchString spaceList with
      | none => rw [hl] at hstart; cases hstart
      | some tasks => rw [hl] at hstart; cases hstart; rfl
    refine ⟨by rw [hcount, hstart_rem], fun hrem => CallInv_progress p _ _ _ spaceList s hinv hrem,
      fun h0 => ?_⟩
    obtain ⟨hdone, hperm⟩ := CallInv_done p _ _ _ spaceList s hinv h0
    refine ⟨hdone, hperm, ?_⟩
    intro orgId spaces hs hid
    subst hid
    obtain ⟨outcomes, hro, hacc⟩ := hinv.collected
    rw [hacc]
    exact GetAllInstances_arrivalAs p _ _ _ orgId spaces s.arrived hperm outcomes hs hro
  · intro arrival orgId spaces r hs hr
    have hrun : ∃ outcomes,
        runTasks (getSpaceInstances p atkLabel seLabel serviceSearchString)
          (arrival spaces.IdList).1 = some outcomes ∧ r.result = some (collect outcomes) := by
      unfold GetAllInstances getSpaceList at hr
      rw [hs] at hr
      dsimp only at hr
      cases hm : runTasks (getSpaceInstances p atkLabel seLabel serviceSearchString)
          (arrival spaces.IdList).1 with
      | none => rw [hm] at hr; cases hr
      | some outcomes =>
        rw [hm] at hr
        cases hr
        exact ⟨outcomes, rfl, rfl⟩
    obtain ⟨outcomes, hro, hres⟩ := hrun
    have hall : ∀ x ∈ spaces.IdList,
        ∃ o, getSpaceInstances p atkLabel seLabel serviceSearchString x = some o :=
      fun x hx => runTasks_some_mem _ _ _ hro x ((arrival spaces.IdList).2.mem_iff.2 hx)
    obtain ⟨tasks, hl⟩ := launch_some_of_forall p _ _ _ spaces.IdList hall
    have hstart : callStart p atkLabel seLabel serviceSearchString spaces.IdList =
        some ⟨tasks, spaces.IdList.length, {}, []⟩ := by
      unfold callStart
      rw [hl]
    have hinv0 := CallInv_start p _ _ _ spaces.IdList _ hstart
    have hpend : pendingSpaces tasks = spaces.IdList := (launch_spec p _ _ _ _ tasks hl).1
    obtain ⟨schedule, s, hsched, hlen, h0, harr⟩ := schedule_exists p _ _ _ spaces.IdList
      (arrival spaces.IdList).1 _ hinv0
      (by show List.Perm _ (pendingSpaces tasks); rw [hpend]; exact (arrival spaces.IdList).2)
    obtain ⟨hinv, _⟩ := CallInv_run p _ _ _ spaces.IdList schedule _ s hinv0 hsched
    obtain ⟨outcomes2, hro2, hacc⟩ := hinv.collected
    have harr2 : s.arrived = (arrival spaces.IdList).1 := by
      rw [harr]; rfl
    rw [harr2, hro] at hro2
    have ho : outcomes = outcomes2 := Option.some.inj hro2
    refine ⟨_, schedule, s, hstart, hsched, ?_, h0, harr2, ?_⟩
    · rw [hlen]; exact (arrival spaces.IdList).2.length_eq
    · rw [hres, hacc, ho]

/-- Witness of C16: on the sample platform the task of the space `s2`, whose
summary cannot be fetched, makes the one send `no summary` on the error
channel; the call on the two spaces that receives from the second task and
then from the first has made two receives and has no iteration left; and the
return of `GetAllInstances` for the reversed arrival is the end of such a
run. -/
theorem tasks_collector_rendezvous_witness :
    (∃ o, [Outcome.err "no summary"] = [o] ∧
      ((∃ e, o = .err e) ↔ ∃ e, sampleController.SpaceSummary "s2" = .error e)) ∧
    (∃ start s,
      callStart ⟨sampleHelper, sampleController⟩ "atk" "se" "" ["s1", "s2"] = some start ∧
      runSchedule start [1, 0] = some s ∧
      s.remaining + [1, 0].length = ["s1", "s2"].length) ∧
    (∃ r, GetAllInstances ⟨sampleHelper, sampleController⟩ arrivalReversed "atk" "se" ""
        "org" = some r ∧
      ∃ start schedule s,
        callStart ⟨sampleHelper, sampleController⟩ "atk" "se" ""
          ({ IdList := ["s1", "s2"] } : Spaces).IdList = some start ∧
        runSchedule start schedule = some s ∧
        schedule.length = ({ IdList := ["s1", "s2"] } : Spaces).IdList.length ∧
        s.remaining = 0 ∧
        s.arrived = (arrivalReversed ({ IdList := ["s1", "s2"] } : Spaces).IdList).1 ∧
        r.result = some s.atkInstances) :=
  ⟨(tasks_collector_rendezvous ⟨sampleHelper, sampleController⟩ "atk" "se" "").1
      "s2" [Outcome.err "no summary"] rfl,
   ⟨_, _, rfl, rfl,
    ((tasks_collector_rendezvous ⟨sampleHelper, sampleController⟩ "atk" "se" "").2.2.1
      ["s1", "s2"] _ rfl [1, 0] _ rfl).1⟩,
   ⟨_, rfl,
    (tasks_collector_rendezvous ⟨sampleHelper, sampleController⟩ "atk" "se" "").2.2.2
      arrivalReversed "org" { IdList := ["s1", "s2"] } _ rfl rfl⟩⟩

end AppLauncher
